import Mathlib

/-!
# Stealth `rpcblockchain.cpp`: difficulty, kernel rate and windowed transaction volume

A shallow embedding of `GetDifficulty`, `GetPoSKernelPS` and `getwindowedtxvolume`
from `src/rpcblockchain.cpp`, followed by the properties proved about them.

Modelling conventions.

* A chain is the list of block-index records met when following `pprev` from a node:
  the head is the node itself, the last element is the node whose `pprev` is null.
  The empty list stands for a null pointer (`pindexBest == NULL`).
* `unsigned int` values are natural numbers; every `unsigned int` operation that can
  leave the range is reduced modulo `4294967296`.  `int` values are integers; the
  only `int` that can wrap (`nStakesTime`) is reduced to the signed 32-bit range.
* `double` values are rationals. Each operation of `GetDifficulty` is rounded to IEEE 754
  binary64 (round to nearest, ties to even, with subnormals) by `roundDouble`; infinity is
  not represented, so a zero mantissa (a division by zero) is outside the model. The
  products by 2^32, the sum and the quotient of `GetPoSKernelPS` are kept exact.
* The `while` loop of `getwindowedtxvolume` may run forever, so it is run with fuel and
  reports whether it returned together with the records pushed so far.
* Vector indices and block counts never exceed the number of collected samples, which is
  taken to be below 2^32 (`unsigned int nSizePeriod = vBlockTimes.size()`); they are not
  reduced.
-/

namespace Stealth

/-! ## Data model -/

/-- The fields of `CBlockIndex` read by this file.  `fProofOfStake` is the value of
`IsProofOfStake()`.  `nBits`, `nTime` and `nTxVolume` are `unsigned int`. -/
structure CBlockIndex where
  nHeight : Int
  nBits : Nat
  nTime : Nat
  nTxVolume : Nat
  fProofOfStake : Bool
  deriving DecidableEq

/-- Constant `SEC_PER_DAY`. -/
def SEC_PER_DAY : Nat := 86400

/-- Conversion `(unsigned int) n` of an `int`. -/
def toUnsigned (n : Int) : Nat := (n % 4294967296).toNat

/-- Addition of two `unsigned int`. -/
def addU32 (a b : Nat) : Nat := (a + b) % 4294967296

/-- Subtraction of two `unsigned int`. -/
def subU32 (a b : Nat) : Nat := (a + (4294967296 - b % 4294967296)) % 4294967296

/-- Conversion of an integer to `int` (two's complement, 32 bits). -/
def toInt32 (n : Int) : Int := (n + 2147483648) % 4294967296 - 2147483648

/-! ## `GetDifficulty` -/

/-- Modelled from the spec: `GetFork` and `XST_FORKQPOS` are declared outside this file;
the test `GetFork(nHeight) >= XST_FORKQPOS` is the spec's `node.height >= forkHeight`. -/
def reachedForkQPoS (forkHeight nHeight : Int) : Bool := decide (nHeight ≥ forkHeight)

/-- Modelled from the spec: `GetLastBlockIndex` is defined outside this file; it is the
first node backward from the tip whose stake flag is `fProofOfStake`, or the tip itself
if there is none. -/
def GetLastBlockIndex (pindex : List CBlockIndex) (fProofOfStake : Bool) :
    Option CBlockIndex :=
  match pindex.find? (fun b => b.fProofOfStake == fProofOfStake) with
  | some b => some b
  | none => pindex.head?

/-- Rounding of a rational to the nearest integer, ties to the even one. -/
def roundHalfEven (x : ℚ) : ℤ :=
  if x - ⌊x⌋ < 1 / 2 then ⌊x⌋
  else if 1 / 2 < x - ⌊x⌋ then ⌊x⌋ + 1
  else if ⌊x⌋ % 2 = 0 then ⌊x⌋ else ⌊x⌋ + 1

/-- Exponent of the unit in the last place of the binary64 values around `x`: 52 below the
binary exponent of `x`, which is taken to be at least -1022 (the subnormal range). -/
def ulpExponent (x : ℚ) : ℤ := max (Int.log 2 |x|) (-1022) - 52

/-- The `double` result of an operation whose exact value is `x` (IEEE 754 binary64, round to
nearest, ties to even): `x` is rounded to a multiple of its unit in the last place.
Overflow to infinity is not represented; below 2^1024 this is the value the hardware
returns. -/
def roundDouble (x : ℚ) : ℚ :=
  (roundHalfEven (x / 2 ^ ulpExponent x) : ℚ) * 2 ^ ulpExponent x

/-- The loop `while (nShift < 29) { dDiff *= 256.0; nShift++; }` (lines 44-48). -/
def shiftUpLoop : Nat → Int → ℚ → Int × ℚ
  | 0, nShift, dDiff => (nShift, dDiff)
  | fuel + 1, nShift, dDiff =>
    if nShift < 29 then shiftUpLoop fuel (nShift + 1) (roundDouble (dDiff * 256))
    else (nShift, dDiff)

/-- The loop `while (nShift > 29) { dDiff /= 256.0; nShift--; }` (lines 49-53). -/
def shiftDownLoop : Nat → Int → ℚ → Int × ℚ
  | 0, nShift, dDiff => (nShift, dDiff)
  | fuel + 1, nShift, dDiff =>
    if nShift > 29 then shiftDownLoop fuel (nShift - 1) (roundDouble (dDiff / 256))
    else (nShift, dDiff)

/-- The decoding part of `GetDifficulty` (lines 39-55) for a given `nBits`.  `nShift` is
one byte, so 256 iterations are enough fuel for either loop.  The conversions
`(double)0x0000ffff` and `(double)(nBits & 0x00ffffff)` are exact. -/
def decodeBits (nBits : Nat) : ℚ :=
  let nShift : Int := (((nBits >>> 24) &&& 0xff : Nat) : Int)
  let dDiff : ℚ := roundDouble ((0x0000ffff : ℚ) / (((nBits &&& 0x00ffffff : Nat) : ℚ)))
  let up := shiftUpLoop 256 nShift dDiff
  let down := shiftDownLoop 256 up.1 up.2
  down.2

/-- Function `GetDifficulty` (lines 18-56).  `pindexBest` is the chain from the best block
(empty for a null pointer), `blockindex` the argument (`none` for a null pointer). -/
def GetDifficulty (forkHeight : Int) (pindexBest : List CBlockIndex)
    (blockindex : Option CBlockIndex) : ℚ :=
  let resolved : Option CBlockIndex :=
    match blockindex with
    | some b => some b
    | none =>
      match pindexBest with
      | [] => none
      | _ :: _ => GetLastBlockIndex pindexBest false
  match resolved with
  | none => 1
  | some b =>
    if reachedForkQPoS forkHeight b.nHeight then 0
    else decodeBits b.nBits

/-! ## `GetPoSKernelPS` -/

/-- The local variables of `GetPoSKernelPS` that the loop updates. -/
structure KernelState where
  dStakeKernelsTriedAvg : ℚ
  nStakesHandled : Int
  nStakesTime : Int
  pindexPrevStake : Option CBlockIndex

/-- The loop `while (pindex && nStakesHandled < nPoSInterval)` (lines 67-78); the list is
the chain from `pindex`.  `nStakesTime += a - b` adds an `unsigned int` difference to an
`int`, which is arithmetic modulo 2^32 read back as `int`. -/
def kernelLoop (forkHeight : Int) (pindexBest : List CBlockIndex) (nPoSInterval : Int) :
    List CBlockIndex → KernelState → KernelState
  | [], st => st
  | pindex :: pprev, st =>
    if st.nStakesHandled < nPoSInterval then
      kernelLoop forkHeight pindexBest nPoSInterval pprev
        (if pindex.fProofOfStake then
          { dStakeKernelsTriedAvg :=
              st.dStakeKernelsTriedAvg
                + GetDifficulty forkHeight pindexBest (some pindex) * 4294967296
            nStakesTime :=
              toInt32 (st.nStakesTime +
                (match st.pindexPrevStake with
                 | some prevStake => (subU32 prevStake.nTime pindex.nTime : Int)
                 | none => 0))
            pindexPrevStake := some pindex
            nStakesHandled := st.nStakesHandled + 1 }
         else st)
    else st

/-- Function `GetPoSKernelPS` (lines 58-81). -/
def GetPoSKernelPS (forkHeight : Int) (pindexBest : List CBlockIndex) : ℚ :=
  let nPoSInterval : Int := 72
  let st := kernelLoop forkHeight pindexBest nPoSInterval pindexBest ⟨0, 0, 0, none⟩
  if st.nStakesTime ≠ 0 then st.dStakeKernelsTriedAvg / (st.nStakesTime : ℚ) else 0

/-! ## `getwindowedtxvolume` -/

/-- The `runtime_error`s thrown by `getwindowedtxvolume`, one constructor per `throw`
(the help-text error of the first `if` is not modelled: the call has three parameters). -/
inductive RpcError
  /-- Message: Period should be greater than 0. -/
  | periodTooSmall
  /-- Message: Period should be less than 100 years. -/
  | periodTooLarge
  /-- Message: Window size should be greater than 0. -/
  | windowTooSmall
  /-- Message: Window size should be less than or equal to period. -/
  | windowTooLarge
  /-- Message: Window spacing should be greater than 0. -/
  | spacingTooSmall
  /-- Message: Window spacing should be less than or equal to window. -/
  | spacingTooLarge
  /-- Message: No blocks. -/
  | noBlocks
  /-- Message: TSNH: Invalid block time. -/
  | invalidBlockTime
  deriving DecidableEq

/-- The errors about `period`, `windowSize` or `granularity` (the spec's InvalidParameter). -/
def RpcError.isInvalidParameter : RpcError → Bool
  | .periodTooSmall => true
  | .periodTooLarge => true
  | .windowTooSmall => true
  | .windowTooLarge => true
  | .spacingTooSmall => true
  | .spacingTooLarge => true
  | .noBlocks => false
  | .invalidBlockTime => false

/-- The six parameter checks of `getwindowedtxvolume` (lines 339-373), in source order. -/
def checkParams (nPeriod nWindow nGranularity : Int) : Option RpcError :=
  if nPeriod < 1 then some .periodTooSmall
  else if toUnsigned nPeriod > (36525 * SEC_PER_DAY) % 4294967296 then some .periodTooLarge
  else if nWindow < 1 then some .windowTooSmall
  else if nWindow > nPeriod then some .windowTooLarge
  else if nGranularity < 1 then some .spacingTooSmall
  else if nGranularity > nWindow then some .spacingTooLarge
  else none

/-- One entry of the parallel vectors `vBlockTimes` / `vNumberTxs`. -/
structure Sample where
  nBlockTime : Nat
  nNumberTxs : Nat
  deriving DecidableEq

/-- One entry of the parallel arrays `aryWindowStartTimes` / `aryTotalBlocks` /
`aryTotalTxs` (keys `window_start`, `number_blocks`, `tx_volume`). -/
structure WindowRecord where
  window_start : Nat
  number_blocks : Nat
  tx_volume : Nat
  deriving DecidableEq

/-- The collection loop (lines 393-404), in push order (tip first).
`collectSamples nPeriodStart nTime pindex chain`: `chain` is what `pindex->pprev` reaches.
The body runs only while `pindex->pprev` is non-null. -/
def collectSamples (nPeriodStart : Nat) : Nat → CBlockIndex → List CBlockIndex → List Sample
  | _, _, [] => []
  | nTime, pindex, pprev :: rest =>
    ⟨nTime, pindex.nTxVolume⟩ ::
      (if pprev.nTime < nPeriodStart then []
       else collectSamples nPeriodStart pprev.nTime pprev rest)

/-- The variables that live across iterations of the window loop, and the output arrays. -/
structure LoopState where
  nWindowStart : Nat
  nWindowEnd : Nat
  idx : Nat
  idxNext : Nat
  fNextUnknown : Bool
  out : List WindowRecord
  deriving DecidableEq

/-- The `for` loop (lines 435-456) over the samples `vBlockTimes[idx..]`, `st.idx` being
the index of the head of the list.  The empty list is `idx == nSizePeriod`. -/
def forLoop (nGranularity nNextWindowStart : Nat) :
    List Sample → Nat → Nat → LoopState → LoopState
  | [], _, _, st => st
  | s :: rest, nWindowBlocks, nWindowTotal, st =>
    if s.nBlockTime > st.nWindowEnd then
      { st with
        out := st.out ++ [⟨st.nWindowStart, nWindowBlocks, nWindowTotal⟩]
        nWindowStart := nNextWindowStart
        nWindowEnd := addU32 st.nWindowEnd nGranularity }
    else
      forLoop nGranularity nNextWindowStart rest (nWindowBlocks + 1)
        (addU32 nWindowTotal s.nNumberTxs)
        (if st.fNextUnknown && decide (s.nBlockTime ≥ nNextWindowStart) then
          { st with idx := st.idx + 1, idxNext := st.idx, fNextUnknown := false }
         else { st with idx := st.idx + 1 })

/-- The body of the `while` loop (lines 424-456). -/
def whileBody (samples : List Sample) (nGranularity : Nat) (st : LoopState) : LoopState :=
  let idxNext := if st.fNextUnknown then st.idx else st.idxNext
  forLoop nGranularity (addU32 st.nWindowStart nGranularity) (samples.drop idxNext) 0 0
    { st with idxNext := idxNext, fNextUnknown := true, idx := idxNext }

/-- What a run of the window loop has produced: `returned` tells whether the loop was
left within the fuel, `windows` are the records pushed so far. -/
structure Outcome where
  returned : Bool
  windows : List WindowRecord
  deriving DecidableEq

/-- The `while (nWindowEnd < nPeriodEnd)` loop (line 422), run for at most `fuel` iterations. -/
def whileLoop (samples : List Sample) (nPeriodEnd nGranularity : Nat) :
    Nat → LoopState → Outcome
  | 0, st => ⟨decide (¬ st.nWindowEnd < nPeriodEnd), st.out⟩
  | fuel + 1, st =>
    if st.nWindowEnd < nPeriodEnd then
      whileLoop samples nPeriodEnd nGranularity fuel (whileBody samples nGranularity st)
    else ⟨true, st.out⟩

/-- First window start: `nPeriodStart = 1 + nPeriodEnd - nPeriod` (line 389). -/
def periodStart (nPeriodEnd : Nat) (nPeriod : Int) : Nat :=
  subU32 (addU32 1 nPeriodEnd) (toUnsigned nPeriod)

/-- The samples in chronological order (lines 391-407): `pindexBest = tip :: rest`. -/
def periodSamples (tip : CBlockIndex) (rest : List CBlockIndex) (nPeriod : Int) : List Sample :=
  (collectSamples (periodStart tip.nTime nPeriod) tip.nTime tip rest).reverse

/-- Function `getwindowedtxvolume` (lines 339-464) with its three parameters present.
`pindexBest` is the chain from the best block, `pindexGenesisBlock` the global genesis
record. -/
def getwindowedtxvolume (fuel : Nat) (pindexBest : List CBlockIndex)
    (pindexGenesisBlock : CBlockIndex) (nPeriod nWindow nGranularity : Int) :
    Except RpcError Outcome :=
  match checkParams nPeriod nWindow nGranularity with
  | some e => .error e
  | none =>
    match pindexBest with
    | [] => .error .noBlocks
    | tip :: rest =>
      if tip.nTime < pindexGenesisBlock.nTime then .error .invalidBlockTime
      else
        let nPeriodEnd := tip.nTime
        let nWindowStart := periodStart nPeriodEnd nPeriod
        let nWindowEnd := subU32 (addU32 nWindowStart (toUnsigned nWindow)) 1
        .ok (whileLoop (periodSamples tip rest nPeriod) nPeriodEnd (toUnsigned nGranularity)
              fuel ⟨nWindowStart, nWindowEnd, 0, 0, true, []⟩)

/-! ## Definitions used to state the properties -/

/-- Index at which the next `for` loop starts: `idx` if no sample at or after the next
window start was seen, `idxNext` otherwise (lines 424-431). -/
def nextStart (st : LoopState) : Nat := if st.fNextUnknown then st.idx else st.idxNext

/-- Test `a <= time <= b` on a sample. -/
def inWindow (a b : Nat) (s : Sample) : Bool := decide (a ≤ s.nBlockTime ∧ s.nBlockTime ≤ b)

/-- The samples with `a <= time <= b`. -/
def samplesIn (samples : List Sample) (a b : Nat) : List Sample := samples.filter (inWindow a b)

/-- What a window record says about the samples: its block count and its transaction total
(modulo 2^32) are those of the samples with `window_start <= time <= window_start + w - 1`. -/
def windowCounts (samples : List Sample) (w : Nat) (r : WindowRecord) : Prop :=
  r.number_blocks = (samplesIn samples r.window_start (r.window_start + w - 1)).length ∧
  r.tx_volume =
    ((samplesIn samples r.window_start (r.window_start + w - 1)).map Sample.nNumberTxs).sum
      % 4294967296

/-- Number of windows: `ceil((period - windowSize) / granularity)`. -/
def windowCount (nPeriod nWindow nGranularity : Int) : Nat :=
  ((nPeriod - nWindow + nGranularity - 1) / nGranularity).toNat

/-- The sample pushed for a block-index record. -/
def toSample (b : CBlockIndex) : Sample := ⟨b.nTime, b.nTxVolume⟩

/-- The stake blocks that `GetPoSKernelPS` handles: the first 72 proof-of-stake blocks
met walking backward from the tip. -/
def sampledStakes (pindexBest : List CBlockIndex) : List CBlockIndex :=
  (pindexBest.filter (fun b => b.fProofOfStake)).take 72

/-- Sum of `prevStakeNode.time - node.time` over consecutive blocks of a list. -/
def stakeGaps : List CBlockIndex → Int
  | a :: b :: rest => ((a.nTime : Int) - (b.nTime : Int)) + stakeGaps (b :: rest)
  | _ => 0

/-- The spec's `weightedSum`: the sum of `difficulty * 2^32` over the sampled stake blocks. -/
def weightedSum (forkHeight : Int) (pindexBest : List CBlockIndex) : ℚ :=
  ((sampledStakes pindexBest).map
    (fun b => GetDifficulty forkHeight pindexBest (some b) * 4294967296)).sum

/-- The spec's `elapsedTime`: the sum of the time differences between consecutive sampled
stake blocks, as a signed 32-bit integer. -/
def elapsedTime (pindexBest : List CBlockIndex) : Int :=
  toInt32 (stakeGaps (sampledStakes pindexBest))

/-- Genesis record with time 800. -/
def genesis800 : CBlockIndex := ⟨0, 0x1d00ffff, 800, 0, false⟩

/-- Proof-of-work blocks at heights `below - 1, ..., 0`, ten seconds apart from `base`. -/
def workBlocks (below base : Nat) : List CBlockIndex :=
  (List.range below).reverse.map
    (fun h : Nat => (⟨(h : Int), 0x1d00ffff, base + 10 * h, 1, false⟩ : CBlockIndex))

/-- A stake tip at height 80, 71 proof-of-work blocks (heights 79..9), a second stake block
at height 8, then proof-of-work blocks down to genesis. -/
def farStakeChain : List CBlockIndex :=
  ⟨80, 0x1d00ffff, 2000, 1, true⟩ ::
    ((List.range 71).reverse.map
      (fun h : Nat => (⟨(h : Int) + 9, 0x1d00ffff, 1100 + 10 * h, 1, false⟩ : CBlockIndex)) ++
    (⟨8, 0x1d00ffff, 1000, 1, true⟩ :: workBlocks 8 900))

/-- Two blocks whose transaction counts add up to 2^32 fall in the window `[901, 950]`. -/
def overflowChain : List CBlockIndex :=
  [⟨3, 0x1d00ffff, 1000, 1, false⟩, ⟨2, 0x1d00ffff, 950, 2147483648, false⟩,
   ⟨1, 0x1d00ffff, 940, 2147483648, false⟩, genesis800]

/-- Tip of `overlapChain`. -/
def overlapTip : CBlockIndex := ⟨5, 0x1d00ffff, 1000, 7, false⟩

/-- What `pprev` reaches from `overlapTip`: blocks at times 990, 961, 950, 901 and a genesis
block at time 800. -/
def overlapRest : List CBlockIndex :=
  [⟨4, 0x1d00ffff, 990, 3, false⟩, ⟨3, 0x1d00ffff, 961, 3, false⟩,
   ⟨2, 0x1d00ffff, 950, 2, false⟩, ⟨1, 0x1d00ffff, 901, 5, false⟩, genesis800]

/-- Genesis record with time 901. -/
def genesis901 : CBlockIndex := ⟨0, 0x1d00ffff, 901, 5, false⟩

/-- Tip with time 1000 of the two-block chains. -/
def tip1000 : CBlockIndex := ⟨1, 0x1d00ffff, 1000, 7, false⟩

/-- Genesis record with time 1000, the only block of its chain. -/
def genesis1000 : CBlockIndex := ⟨0, 0x1d00ffff, 1000, 5, false⟩

/-! ## Supporting lemmas -/

theorem checkParams_of_violation (nPeriod nWindow nGranularity : Int)
    (hint : -2147483648 ≤ nPeriod ∧ nPeriod ≤ 2147483647)
    (hbad : nPeriod ≤ 0 ∨ nPeriod > 36525 * 86400 ∨ nWindow < 1 ∨ nWindow > nPeriod ∨
      nGranularity < 1 ∨ nGranularity > nWindow) :
    ∃ e, e.isInvalidParameter = true ∧ checkParams nPeriod nWindow nGranularity = some e := by
  unfold checkParams
  split_ifs with h1 h2 h3 h4 h5 h6
  · exact ⟨.periodTooSmall, rfl, rfl⟩
  · exact ⟨.periodTooLarge, rfl, rfl⟩
  · exact ⟨.windowTooSmall, rfl, rfl⟩
  · exact ⟨.windowTooLarge, rfl, rfl⟩
  · exact ⟨.spacingTooSmall, rfl, rfl⟩
  · exact ⟨.spacingTooLarge, rfl, rfl⟩
  · exfalso; omega

theorem checkParams_none_iff (nPeriod nWindow nGranularity : Int)
    (hint : nPeriod ≤ 2147483647) :
    checkParams nPeriod nWindow nGranularity = none ↔
      (1 ≤ nPeriod ∧ 1 ≤ nWindow ∧ nWindow ≤ nPeriod ∧ 1 ≤ nGranularity ∧
        nGranularity ≤ nWindow) := by
  unfold checkParams toUnsigned SEC_PER_DAY
  split_ifs with h1 h2 h3 h4 h5 h6 <;> simp <;> omega

theorem roundHalfEven_intCast (n : ℤ) : roundHalfEven (n : ℚ) = n := by
  simp [roundHalfEven]

theorem roundHalfEven_bounds (x : ℚ) : ⌊x⌋ ≤ roundHalfEven x ∧ roundHalfEven x ≤ ⌊x⌋ + 1 := by
  unfold roundHalfEven
  split_ifs <;> constructor <;> omega

theorem roundDouble_zero : roundDouble 0 = 0 := by
  simp [roundDouble, roundHalfEven]

theorem ulpExponent_le (n k : ℤ) (hn0 : n ≠ 0) (hn : |n| < 2 ^ 53) (hk : -1074 ≤ k) :
    ulpExponent ((n : ℚ) * 2 ^ k) ≤ k := by
  unfold ulpExponent
  have hpos : (0 : ℚ) < |(n : ℚ) * 2 ^ k| := by
    rw [abs_pos]; exact mul_ne_zero (by exact_mod_cast hn0) (zpow_ne_zero _ (by norm_num))
  have hlt : |(n : ℚ) * 2 ^ k| < ((2 : ℕ) : ℚ) ^ (53 + k) := by
    rw [abs_mul, abs_of_pos (zpow_pos (by norm_num : (0 : ℚ) < 2) k), zpow_add₀ (by norm_num)]
    apply mul_lt_mul_of_pos_right _ (zpow_pos (by norm_num) k)
    have : ((|n| : ℤ) : ℚ) < ((2 ^ 53 : ℤ) : ℚ) := by exact_mod_cast hn
    norm_num at this ⊢
    exact this
  have hlog := (Int.lt_zpow_iff_log_lt (by norm_num : 1 < 2) hpos).1 hlt
  omega

theorem roundDouble_exact (n k : ℤ) (hn : |n| < 2 ^ 53) (hk : -1074 ≤ k) :
    roundDouble ((n : ℚ) * 2 ^ k) = (n : ℚ) * 2 ^ k := by
  by_cases hn0 : n = 0
  · subst hn0; simp [roundDouble_zero]
  have hu := ulpExponent_le n k hn0 hn hk
  unfold roundDouble
  generalize ulpExponent ((n : ℚ) * 2 ^ k) = u at hu
  have h2 : (2 : ℚ) ≠ 0 := by norm_num
  have hq : (n : ℚ) * 2 ^ k / 2 ^ u = ((n * 2 ^ (k - u).toNat : ℤ) : ℚ) := by
    rw [mul_div_assoc, ← zpow_sub₀ h2]
    have : k - u = ((k - u).toNat : ℤ) := by omega
    rw [this, zpow_natCast]
    push_cast
    congr 2
  rw [hq, roundHalfEven_intCast]
  push_cast
  rw [mul_assoc, ← zpow_natCast, ← zpow_add₀ h2]
  congr 2
  omega


theorem roundDouble_repr (z : ℚ) (L : ℤ) (hL : -1022 ≤ L) (hz : (2 : ℚ) ^ L ≤ z) :
    ∃ n k : ℤ, |n| < 2 ^ 53 ∧ L - 52 ≤ k ∧ roundDouble z = (n : ℚ) * 2 ^ k := by
  have hzpos : 0 < z := lt_of_lt_of_le (zpow_pos (by norm_num) L) hz
  have habs : |z| = z := abs_of_pos hzpos
  have hlog : L ≤ Int.log 2 z :=
    (Int.zpow_le_iff_le_log (by norm_num : 1 < 2) hzpos).1 (by exact_mod_cast hz)
  have hu : ulpExponent z = Int.log 2 z - 52 := by
    unfold ulpExponent; rw [habs]; omega
  have h2 : (2 : ℚ) ≠ 0 := by norm_num
  have hupos : (0 : ℚ) < 2 ^ ulpExponent z := zpow_pos (by norm_num) _
  have hy : z / 2 ^ ulpExponent z < 2 ^ (53 : ℕ) := by
    rw [div_lt_iff₀ hupos, ← zpow_natCast, ← zpow_add₀ h2, hu]
    have := Int.lt_zpow_succ_log_self (by norm_num : 1 < 2) z
    have e : ((53 : ℕ) : ℤ) + (Int.log 2 z - 52) = Int.log 2 z + 1 := by omega
    rw [e]
    exact_mod_cast this
  have hy0 : 0 ≤ z / 2 ^ ulpExponent z := div_nonneg hzpos.le hupos.le
  have hfl0 : 0 ≤ ⌊z / 2 ^ ulpExponent z⌋ := Int.floor_nonneg.2 hy0
  have hfl1 : ⌊z / 2 ^ ulpExponent z⌋ < 2 ^ 53 := by
    rw [Int.floor_lt]; exact_mod_cast hy
  obtain ⟨hb1, hb2⟩ := roundHalfEven_bounds (z / 2 ^ ulpExponent z)
  by_cases hN : roundHalfEven (z / 2 ^ ulpExponent z) < 2 ^ 53
  · refine ⟨roundHalfEven (z / 2 ^ ulpExponent z), ulpExponent z, ?_, by omega, rfl⟩
    rw [abs_of_nonneg (le_trans hfl0 hb1)]
    exact hN
  · have hNe : roundHalfEven (z / 2 ^ ulpExponent z) = 2 ^ 53 := by omega
    refine ⟨2 ^ 52, ulpExponent z + 1, by norm_num, by omega, ?_⟩
    unfold roundDouble
    rw [hNe, zpow_add₀ h2]
    push_cast
    ring

theorem shiftUpLoop_ge (fuel : Nat) (nShift : Int) (dDiff : ℚ) (h : 29 ≤ nShift) :
    shiftUpLoop fuel nShift dDiff = (nShift, dDiff) := by
  cases fuel with
  | zero => rfl
  | succ fuel => unfold shiftUpLoop; rw [if_neg (by omega)]

theorem shiftDownLoop_le (fuel : Nat) (nShift : Int) (dDiff : ℚ) (h : nShift ≤ 29) :
    shiftDownLoop fuel nShift dDiff = (nShift, dDiff) := by
  cases fuel with
  | zero => rfl
  | succ fuel => unfold shiftDownLoop; rw [if_neg (by omega)]

theorem shiftDownLoop_succ (fuel : Nat) (nShift : Int) (dDiff : ℚ) (h : 29 < nShift) :
    shiftDownLoop (fuel + 1) nShift dDiff =
      shiftDownLoop fuel (nShift - 1) (roundDouble (dDiff / 256)) := by
  rw [shiftDownLoop, if_pos h]

theorem mul_256_zpow (n k : ℤ) : (n : ℚ) * 2 ^ k * 256 = (n : ℚ) * 2 ^ (k + 8) := by
  rw [zpow_add₀ (by norm_num : (2 : ℚ) ≠ 0)]; norm_num; ring

theorem div_256_zpow (n k : ℤ) : (n : ℚ) * 2 ^ k / 256 = (n : ℚ) * 2 ^ (k - 8) := by
  rw [zpow_sub₀ (by norm_num : (2 : ℚ) ≠ 0)]; norm_num; ring

theorem shiftUpLoop_exact (fuel : Nat) : ∀ (nShift : Int) (n k : ℤ), nShift ≤ 29 →
    29 - nShift ≤ fuel → |n| < 2 ^ 53 → -1074 ≤ k →
    shiftUpLoop fuel nShift ((n : ℚ) * 2 ^ k) =
      (29, (n : ℚ) * 2 ^ k * 256 ^ (29 - nShift).toNat) := by
  induction fuel with
  | zero =>
    intro nShift n k h1 h2 _ _
    have : nShift = 29 := by omega
    subst this
    simp [shiftUpLoop]
  | succ fuel ih =>
    intro nShift n k h1 h2 hn hk
    unfold shiftUpLoop
    by_cases h : nShift < 29
    · rw [if_pos h, mul_256_zpow, roundDouble_exact n (k + 8) hn (by omega),
        ih (nShift + 1) n (k + 8) (by omega) (by omega) hn (by omega)]
      have : (29 - nShift).toNat = (29 - (nShift + 1)).toNat + 1 := by omega
      rw [this, pow_succ, ← mul_256_zpow]
      congr 1
      ring
    · have : nShift = 29 := by omega
      subst this
      simp

theorem shiftDownLoop_steps (j : Nat) : ∀ (fuel : Nat) (nShift : Int) (n k : ℤ), j ≤ fuel →
    29 ≤ nShift - j → |n| < 2 ^ 53 → -1074 ≤ k - 8 * j →
    shiftDownLoop fuel nShift ((n : ℚ) * 2 ^ k) =
      shiftDownLoop (fuel - j) (nShift - j) ((n : ℚ) * 2 ^ (k - 8 * j)) := by
  induction j with
  | zero => intro fuel nShift n k _ _ _ _; simp
  | succ j ih =>
    intro fuel nShift n k hf hs hn hk
    obtain ⟨f, rfl⟩ : ∃ f, fuel = f + 1 := ⟨fuel - 1, by omega⟩
    rw [shiftDownLoop_succ f nShift _ (by omega), div_256_zpow,
      roundDouble_exact n (k - 8) hn (by omega),
      ih f (nShift - 1) n (k - 8) (by omega) (by omega) hn (by omega)]
    have e1 : f + 1 - (j + 1) = f - j := by omega
    have e2 : nShift - 1 - (j : ℤ) = nShift - ((j + 1 : ℕ) : ℤ) := by push_cast; ring
    have e3 : k - 8 - 8 * (j : ℤ) = k - 8 * ((j + 1 : ℕ) : ℤ) := by push_cast; ring
    rw [e1, e2, e3]

theorem shiftDownLoop_exact (fuel : Nat) (nShift : Int) (n k : ℤ) (h1 : 29 ≤ nShift)
    (h2 : nShift - 29 ≤ fuel) (hn : |n| < 2 ^ 53) (hk : -1074 ≤ k - 8 * (nShift - 29)) :
    shiftDownLoop fuel nShift ((n : ℚ) * 2 ^ k) =
      (29, (n : ℚ) * 2 ^ k / 256 ^ (nShift - 29).toNat) := by
  have hj : ((nShift - 29).toNat : ℤ) = nShift - 29 := by omega
  rw [shiftDownLoop_steps (nShift - 29).toNat fuel nShift n k (by omega) (by omega) hn
    (by omega), hj, shiftDownLoop_le _ _ _ (by omega)]
  congr 1
  · omega
  · rw [zpow_sub₀ (by norm_num : (2 : ℚ) ≠ 0), mul_div_assoc]
    congr 2
    have : (8 : ℤ) * (nShift - 29) = ((8 * (nShift - 29).toNat : ℕ) : ℤ) := by omega
    rw [this, zpow_natCast, pow_mul]
    norm_num

theorem decodeBits_eq (nBits : Nat) (hm : 1 ≤ nBits &&& 0x00ffffff)
    (hs : (nBits >>> 24) &&& 0xff ≤ 155) :
    decodeBits nBits =
      roundDouble (65535 / (((nBits &&& 0x00ffffff : Nat) : ℚ))) *
        (256 : ℚ) ^ ((29 : ℤ) - (((nBits >>> 24) &&& 0xff : Nat) : ℤ)) := by
  have hle : (nBits &&& 0x00ffffff : Nat) ≤ 0x00ffffff := Nat.and_le_right
  unfold decodeBits
  simp only []
  generalize ((nBits >>> 24) &&& 0xff : Nat) = s at hs
  generalize (nBits &&& 0x00ffffff : Nat) = m at hm hle
  have hz : (2 : ℚ) ^ (-9 : ℤ) ≤ 65535 / (m : ℚ) := by
    have hm0 : (0 : ℚ) < m := by exact_mod_cast hm
    rw [le_div_iff₀ hm0]
    have : (m : ℚ) ≤ 16777215 := by exact_mod_cast hle
    norm_num
    linarith
  obtain ⟨n, k, hn, hk, hd⟩ := roundDouble_repr (65535 / (m : ℚ)) (-9) (by norm_num) hz
  have h65 : ((65535 : ℕ) : ℚ) = 65535 := by norm_num
  rw [show ((65535 : ℚ) / (m : ℚ)) = 65535 / (m : ℚ) from rfl, hd]
  by_cases h : (s : ℤ) ≤ 29
  · rw [shiftUpLoop_exact 256 s n k h (by omega) hn (by omega)]
    simp only []
    rw [shiftDownLoop_le 256 29 _ (le_refl _)]
    simp only []
    have h2 : ((29 : ℤ) - (s : ℤ)) = (((29 : ℤ) - (s : ℤ)).toNat : ℤ) := by omega
    rw [h2, zpow_natCast]
    congr 2
  · rw [shiftUpLoop_ge 256 s _ (by omega)]
    simp only []
    rw [shiftDownLoop_exact 256 s n k (by omega) (by omega) hn (by omega)]
    simp only []
    have h2 : ((29 : ℤ) - (s : ℤ)) = -((((s : ℤ) - 29).toNat : ℕ) : ℤ) := by omega
    rw [h2, zpow_neg, zpow_natCast, div_eq_mul_inv]

theorem roundDouble_one : roundDouble 1 = 1 := by
  have := roundDouble_exact 1 0 (by norm_num) (by norm_num)
  simpa using this

theorem decodeBits_one : decodeBits 0x1d00ffff = 1 := by
  rw [decodeBits_eq _ (by decide) (by decide)]
  have h1 : (0x1d00ffff &&& 0x00ffffff : Nat) = 65535 := by decide
  have h2 : ((0x1d00ffff >>> 24) &&& 0xff : Nat) = 29 := by decide
  rw [h1, h2]
  norm_num
  exact roundDouble_one

theorem ulpExponent_subnormal (x : ℚ) (h0 : 0 < x) (h : x < 2 ^ (-1022 : ℤ)) :
    ulpExponent x = -1074 := by
  unfold ulpExponent
  rw [abs_of_pos h0]
  have hlog : Int.log 2 x < -1022 :=
    (Int.lt_zpow_iff_log_lt (by norm_num : 1 < 2) h0).1 (by exact_mod_cast h)
  rw [max_eq_right hlog.le]
  norm_num

theorem shiftDownLoop_zero (fuel : Nat) : ∀ nShift : Int,
    (shiftDownLoop fuel nShift 0).2 = 0 := by
  induction fuel with
  | zero => intro nShift; rfl
  | succ fuel ih =>
    intro nShift
    unfold shiftDownLoop
    split_ifs
    · rw [zero_div, roundDouble_zero]; exact ih _
    · rfl

theorem roundDouble_subnormal_up :
    roundDouble (((65535 : ℤ) : ℚ) * 2 ^ (-1080 : ℤ)) = ((1 : ℤ) : ℚ) * 2 ^ (-1064 : ℤ) := by
  have hu : ulpExponent (((65535 : ℤ) : ℚ) * 2 ^ (-1080 : ℤ)) = -1074 := by
    apply ulpExponent_subnormal
    · positivity
    · have : ((65535 : ℤ) : ℚ) * 2 ^ (-1080 : ℤ) < 2 ^ (16 : ℤ) * 2 ^ (-1080 : ℤ) :=
        mul_lt_mul_of_pos_right (by norm_num) (zpow_pos (by norm_num) _)
      refine lt_trans this ?_
      rw [← zpow_add₀ (by norm_num : (2 : ℚ) ≠ 0)]
      exact zpow_lt_zpow_right₀ (by norm_num) (by norm_num)
  unfold roundDouble
  rw [hu]
  have hq : ((65535 : ℤ) : ℚ) * 2 ^ (-1080 : ℤ) / 2 ^ (-1074 : ℤ) = 65535 / 64 := by
    rw [mul_div_assoc, ← zpow_sub₀ (by norm_num : (2 : ℚ) ≠ 0)]
    norm_num
  have hf : ⌊(65535 / 64 : ℚ)⌋ = 1023 := by
    rw [Int.floor_eq_iff]; norm_num
  have hr : roundHalfEven (65535 / 64) = 1024 := by
    unfold roundHalfEven
    rw [hf]
    norm_num
  rw [hq, hr]
  have : (2 : ℚ) ^ (-1064 : ℤ) = 1024 * 2 ^ (-1074 : ℤ) := by
    rw [show (-1064 : ℤ) = 10 + -1074 from rfl, zpow_add₀ (by norm_num : (2 : ℚ) ≠ 0)]
    norm_num
  rw [this]
  push_cast
  ring

theorem roundDouble_subnormal_zero :
    roundDouble (((1 : ℤ) : ℚ) * 2 ^ (-1080 : ℤ)) = 0 := by
  have hu : ulpExponent (((1 : ℤ) : ℚ) * 2 ^ (-1080 : ℤ)) = -1074 := by
    apply ulpExponent_subnormal
    · positivity
    · rw [Int.cast_one, one_mul]
      exact zpow_lt_zpow_right₀ (by norm_num) (by norm_num)
  unfold roundDouble
  rw [hu]
  have hq : ((1 : ℤ) : ℚ) * 2 ^ (-1080 : ℤ) / 2 ^ (-1074 : ℤ) = 1 / 64 := by
    rw [mul_div_assoc, ← zpow_sub₀ (by norm_num : (2 : ℚ) ≠ 0)]
    norm_num
  have hf : ⌊(1 / 64 : ℚ)⌋ = 0 := by
    rw [Int.floor_eq_iff]; norm_num
  have hr : roundHalfEven (1 / 64) = 0 := by
    unfold roundHalfEven
    rw [hf]
    norm_num
  rw [hq, hr]
  simp

theorem decodeBits_underflow : decodeBits 0xff000001 = 0 := by
  have h1 : (0xff000001 &&& 0x00ffffff : Nat) = 1 := by decide
  have h2 : ((0xff000001 >>> 24) &&& 0xff : Nat) = 255 := by decide
  have h0 : roundDouble (65535 / ((1 : ℕ) : ℚ)) = ((65535 : ℤ) : ℚ) * 2 ^ (0 : ℤ) := by
    have := roundDouble_exact 65535 0 (by norm_num) (by norm_num)
    simpa using this
  unfold decodeBits
  simp only []
  rw [h1, h2, show ((65535 : ℚ)) = 65535 from rfl, h0, shiftUpLoop_ge 256 _ _ (by norm_num)]
  simp only []
  rw [shiftDownLoop_steps 134 256 _ 65535 0 (by norm_num) (by norm_num) (by norm_num)
    (by norm_num)]
  have e1 : (256 : ℕ) - 134 = 121 + 1 := rfl
  have e2 : (((255 : ℕ) : ℤ)) - ((134 : ℕ) : ℤ) = 121 := by norm_num
  have e3 : (0 : ℤ) - 8 * ((134 : ℕ) : ℤ) = -1072 := by norm_num
  rw [e1, e2, e3, shiftDownLoop_succ 121 121 _ (by norm_num), div_256_zpow,
    show (-1072 : ℤ) - 8 = -1080 from rfl, roundDouble_subnormal_up,
    show (121 : ℕ) = 120 + 1 from rfl, shiftDownLoop_succ 120 _ _ (by norm_num), div_256_zpow,
    roundDouble_exact 1 (-1064 - 8) (by norm_num) (by norm_num),
    show (120 : ℕ) = 119 + 1 from rfl, shiftDownLoop_succ 119 _ _ (by norm_num), div_256_zpow,
    show (-1064 : ℤ) - 8 - 8 = -1080 from rfl, roundDouble_subnormal_zero]
  exact shiftDownLoop_zero _ _

theorem roundDouble_seventh_ne : roundDouble (65535 / 7) ≠ 65535 / 7 := by
  intro h
  obtain ⟨n, k, _, hk, hd⟩ := roundDouble_repr (65535 / 7) 13 (by norm_num) (by norm_num)
  rw [h] at hd
  have hk' : k + 39 = ((k + 39).toNat : ℤ) := by omega
  have h2 : (65535 : ℚ) * 2 ^ (39 : ℕ) = 7 * ((n * 2 ^ (k + 39).toNat : ℤ) : ℚ) := by
    push_cast
    rw [← zpow_natCast (2 : ℚ) (k + 39).toNat, ← hk', zpow_add₀ (by norm_num : (2 : ℚ) ≠ 0)]
    have : (65535 : ℚ) = 7 * ((n : ℚ) * 2 ^ k) := by rw [← hd]; norm_num
    rw [this]
    norm_num
    ring
  have h3 : (65535 : ℤ) * 2 ^ 39 = 7 * (n * 2 ^ (k + 39).toNat) := by exact_mod_cast h2
  omega

theorem toInt32_idem (x : Int) : toInt32 (toInt32 x) = toInt32 x := by
  unfold toInt32; omega

theorem kernelLoop_spec (forkHeight : Int) (pindexBest : List CBlockIndex) (n : Int) :
    ∀ (chain : List CBlockIndex) (st : KernelState), st.nStakesHandled ≤ n →
      toInt32 st.nStakesTime = st.nStakesTime →
      (kernelLoop forkHeight pindexBest n chain st).dStakeKernelsTriedAvg =
          st.dStakeKernelsTriedAvg +
            (((chain.filter (fun b => b.fProofOfStake)).take (n - st.nStakesHandled).toNat).map
              (fun b => GetDifficulty forkHeight pindexBest (some b) * 4294967296)).sum ∧
      (kernelLoop forkHeight pindexBest n chain st).nStakesTime =
          toInt32 (st.nStakesTime + stakeGaps (st.pindexPrevStake.toList ++
            (chain.filter (fun b => b.fProofOfStake)).take (n - st.nStakesHandled).toNat)) := by
  intro chain
  induction chain with
  | nil =>
    intro st _ hr
    cases hp : st.pindexPrevStake <;> simp [kernelLoop, stakeGaps, hr]
  | cons pindex pprev ih =>
    intro st hn hr
    unfold kernelLoop
    by_cases hlt : st.nStakesHandled < n
    · rw [if_pos hlt]
      by_cases hs : pindex.fProofOfStake = true
      · rw [if_pos hs]
        have hk : (n - st.nStakesHandled).toNat = (n - (st.nStakesHandled + 1)).toNat + 1 := by
          omega
        obtain ⟨h1, h2⟩ := ih
          { dStakeKernelsTriedAvg :=
              st.dStakeKernelsTriedAvg
                + GetDifficulty forkHeight pindexBest (some pindex) * 4294967296
            nStakesTime :=
              toInt32 (st.nStakesTime +
                (match st.pindexPrevStake with
                 | some prevStake => (subU32 prevStake.nTime pindex.nTime : Int)
                 | none => 0))
            pindexPrevStake := some pindex
            nStakesHandled := st.nStakesHandled + 1 } (by simp; omega) (toInt32_idem _)
        rw [h1, h2, List.filter_cons_of_pos (by simpa using hs), hk, List.take_succ_cons]
        constructor
        · simp only [List.map_cons, List.sum_cons]; ring
        · simp only [Option.toList, List.singleton_append]
          generalize hS : List.take (n - (st.nStakesHandled + 1)).toNat
            (List.filter (fun b => b.fProofOfStake) pprev) = S
          cases hp : st.pindexPrevStake with
          | none =>
            simp only [List.nil_append]
            generalize stakeGaps (pindex :: S) = G
            unfold toInt32; omega
          | some q =>
            simp only [List.singleton_append, stakeGaps]
            generalize stakeGaps (pindex :: S) = G
            unfold toInt32 subU32; omega
      · rw [if_neg hs, List.filter_cons_of_neg (by simpa using hs)]
        exact ih st hn hr
    · rw [if_neg hlt]
      have : (n - st.nStakesHandled).toNat = 0 := by omega
      rw [this]
      cases hp : st.pindexPrevStake <;> simp [stakeGaps, hr]

theorem GetPoSKernelPS_eq (forkHeight : Int) (pindexBest : List CBlockIndex) :
    GetPoSKernelPS forkHeight pindexBest =
      if elapsedTime pindexBest ≠ 0 then
        weightedSum forkHeight pindexBest / (elapsedTime pindexBest : ℚ)
      else 0 := by
  obtain ⟨h1, h2⟩ := kernelLoop_spec forkHeight pindexBest 72 pindexBest ⟨0, 0, 0, none⟩
    (by simp) (by decide)
  simp only [GetPoSKernelPS, h1, h2, elapsedTime, weightedSum, sampledStakes]
  simp

theorem GetDifficulty_some (forkHeight : Int) (pindexBest : List CBlockIndex) (b : CBlockIndex)
    (h : b.nHeight < forkHeight) :
    GetDifficulty forkHeight pindexBest (some b) = decodeBits b.nBits := by
  simp [GetDifficulty, reachedForkQPoS, h]

theorem forLoop_break (g NS : Nat) : ∀ (l : List Sample) (b tot : Nat) (st : LoopState),
    tot < 4294967296 → (∃ s ∈ l, st.nWindowEnd < s.nBlockTime) →
    (forLoop g NS l b tot st).out = st.out ++
      [⟨st.nWindowStart,
        b + (l.takeWhile (fun s => decide (s.nBlockTime ≤ st.nWindowEnd))).length,
        (tot + ((l.takeWhile (fun s => decide (s.nBlockTime ≤ st.nWindowEnd))).map
          Sample.nNumberTxs).sum) % 4294967296⟩] ∧
    (forLoop g NS l b tot st).nWindowStart = NS ∧
    (forLoop g NS l b tot st).nWindowEnd = addU32 st.nWindowEnd g ∧
    nextStart (forLoop g NS l b tot st) =
      (if st.fNextUnknown then
        st.idx + (l.takeWhile
          (fun s => decide (s.nBlockTime ≤ st.nWindowEnd ∧ s.nBlockTime < NS))).length
       else st.idxNext) := by
  intro l
  induction l with
  | nil => intro b tot st _ h; obtain ⟨s, hs, _⟩ := h; cases hs
  | cons s rest ih =>
    intro b tot st htot h
    have hadd : addU32 tot s.nNumberTxs < 4294967296 := Nat.mod_lt _ (by norm_num)
    unfold forLoop
    by_cases hs : s.nBlockTime > st.nWindowEnd
    · rw [if_pos hs]
      have h1 : ¬ s.nBlockTime ≤ st.nWindowEnd := by omega
      simp [List.takeWhile_cons, h1, nextStart]
      omega
    · rw [if_neg hs]
      have h1 : s.nBlockTime ≤ st.nWindowEnd := by omega
      have hrest : ∃ x ∈ rest, st.nWindowEnd < x.nBlockTime := by
        obtain ⟨x, hx, hlt⟩ := h
        rcases List.mem_cons.1 hx with rfl | hx
        · omega
        · exact ⟨x, hx, hlt⟩
      by_cases hf : st.fNextUnknown = true
      · by_cases hn : s.nBlockTime ≥ NS
        · have hc : (st.fNextUnknown && decide (s.nBlockTime ≥ NS)) = true := by simp [hf, hn]
          rw [if_pos hc]
          obtain ⟨e1, e2, e3, e4⟩ := ih (b + 1) (addU32 tot s.nNumberTxs)
            { st with idx := st.idx + 1, idxNext := st.idx, fNextUnknown := false } hadd hrest
          simp only [] at e1 e2 e3 e4
          refine ⟨?_, e2, e3, ?_⟩
          · rw [e1]
            simp only [List.takeWhile_cons, h1, decide_True, if_true, List.length_cons,
              List.map_cons, List.sum_cons, addU32]
            congr 2
            congr 1
            · omega
            · omega
          · rw [e4]
            have h2 : ¬ s.nBlockTime < NS := by omega
            simp [hf, List.takeWhile_cons, h2]
        · have hc : ¬ (st.fNextUnknown && decide (s.nBlockTime ≥ NS)) = true := by simp [hn]
          rw [if_neg hc]
          obtain ⟨e1, e2, e3, e4⟩ := ih (b + 1) (addU32 tot s.nNumberTxs)
            { st with idx := st.idx + 1 } hadd hrest
          simp only [] at e1 e2 e3 e4
          refine ⟨?_, e2, e3, ?_⟩
          · rw [e1]
            simp only [List.takeWhile_cons, h1, decide_True, if_true, List.length_cons,
              List.map_cons, List.sum_cons, addU32]
            congr 2
            congr 1
            · omega
            · omega
          · rw [e4]
            have h2 : s.nBlockTime < NS := by omega
            simp [hf, List.takeWhile_cons, h1, h2]
            omega
      · have hc : ¬ (st.fNextUnknown && decide (s.nBlockTime ≥ NS)) = true := by simp [hf]
        rw [if_neg hc]
        obtain ⟨e1, e2, e3, e4⟩ := ih (b + 1) (addU32 tot s.nNumberTxs)
          { st with idx := st.idx + 1 } hadd hrest
        simp only [] at e1 e2 e3 e4
        refine ⟨?_, e2, e3, ?_⟩
        · rw [e1]
          simp only [List.takeWhile_cons, h1, decide_True, if_true, List.length_cons,
            List.map_cons, List.sum_cons, addU32]
          congr 2
          congr 1
          · omega
          · omega
        · rw [e4]
          simp [hf]

theorem takeWhile_append_singleton_length {α : Type} (p : α → Bool) (x : α) (hx : p x = false) :
    ∀ A : List α, ((A ++ [x]).takeWhile p).length ≤ A.length := by
  intro A
  induction A with
  | nil => simp [List.takeWhile_cons, hx]
  | cons a A ih =>
    by_cases ha : p a = true
    · simp only [List.cons_append, List.takeWhile_cons, ha, if_true, List.length_cons]
      omega
    · simp [List.takeWhile_cons, ha]

theorem whileBody_step (samples init : List Sample) (last : Sample) (g : Nat) (st : LoopState)
    (hs : samples = init ++ [last]) (hlt : st.nWindowEnd < last.nBlockTime)
    (hi : nextStart st ≤ init.length) :
    (whileBody samples g st).out = st.out ++
      [⟨st.nWindowStart,
        ((samples.drop (nextStart st)).takeWhile
          (fun s => decide (s.nBlockTime ≤ st.nWindowEnd))).length,
        (((samples.drop (nextStart st)).takeWhile
          (fun s => decide (s.nBlockTime ≤ st.nWindowEnd))).map
            Sample.nNumberTxs).sum % 4294967296⟩] ∧
    (whileBody samples g st).nWindowStart = addU32 st.nWindowStart g ∧
    (whileBody samples g st).nWindowEnd = addU32 st.nWindowEnd g ∧
    nextStart (whileBody samples g st) = nextStart st +
      ((samples.drop (nextStart st)).takeWhile
        (fun s => decide (s.nBlockTime ≤ st.nWindowEnd ∧
          s.nBlockTime < addU32 st.nWindowStart g))).length ∧
    nextStart (whileBody samples g st) ≤ init.length := by
  have hdrop : samples.drop (nextStart st) = init.drop (nextStart st) ++ [last] := by
    rw [hs, List.drop_append_of_le_length hi]
  have hex : ∃ s ∈ samples.drop (nextStart st), st.nWindowEnd < s.nBlockTime :=
    ⟨last, by rw [hdrop]; simp, hlt⟩
  obtain ⟨e1, e2, e3, e4⟩ := forLoop_break g (addU32 st.nWindowStart g)
    (samples.drop (nextStart st)) 0 0
    { st with idxNext := nextStart st, fNextUnknown := true, idx := nextStart st }
    (by norm_num) hex
  simp only [Nat.zero_add, if_true] at e1 e2 e3 e4
  have hb : whileBody samples g st =
      forLoop g (addU32 st.nWindowStart g) (samples.drop (nextStart st)) 0 0
        { st with idxNext := nextStart st, fNextUnknown := true, idx := nextStart st } := rfl
  rw [hb]
  refine ⟨e1, e2, e3, e4, ?_⟩
  rw [e4, hdrop]
  have := takeWhile_append_singleton_length
    (fun s : Sample => decide (s.nBlockTime ≤ st.nWindowEnd ∧
      s.nBlockTime < addU32 st.nWindowStart g)) last
    (by simp; intro h; omega) (init.drop (nextStart st))
  rw [List.length_drop] at this
  omega

theorem whileBody_nil (g : Nat) (st : LoopState) :
    (whileBody [] g st).out = st.out ∧
    (whileBody [] g st).nWindowStart = st.nWindowStart ∧
    (whileBody [] g st).nWindowEnd = st.nWindowEnd ∧
    nextStart (whileBody [] g st) = nextStart st := by
  simp [whileBody, forLoop, nextStart]

theorem takeWhile_eq_filter {α : Type} (p : α → Bool) :
    ∀ l : List α, l.Pairwise (fun x y => p y = true → p x = true) →
      l.takeWhile p = l.filter p := by
  intro l
  induction l with
  | nil => intro _; rfl
  | cons a l ih =>
    intro h
    rw [List.pairwise_cons] at h
    by_cases ha : p a = true
    · simp [List.takeWhile_cons, List.filter_cons, ha, ih h.2]
    · have : l.filter p = [] := by
        rw [List.filter_eq_nil_iff]
        intro y hy hpy
        exact ha (h.1 y hy hpy)
      simp [List.takeWhile_cons, List.filter_cons, ha, this]

theorem drop_filter_length {α : Type} (p : α → Bool) :
    ∀ l : List α, l.Pairwise (fun x y => p y = true → p x = true) →
      l.drop (l.filter p).length = l.filter (fun x => !p x) := by
  intro l
  induction l with
  | nil => intro _; rfl
  | cons a l ih =>
    intro h
    rw [List.pairwise_cons] at h
    by_cases ha : p a = true
    · simp [List.filter_cons, ha, ih h.2]
    · have h0 : l.filter p = [] := by
        rw [List.filter_eq_nil_iff]
        intro y hy hpy
        exact ha (h.1 y hy hpy)
      have h1 : l.filter (fun x => !p x) = l := by
        rw [List.filter_eq_self]
        intro y hy
        have : ¬ p y = true := fun hpy => ha (h.1 y hy hpy)
        simpa using this
      simp [List.filter_cons, ha, h0, h1]

theorem filter_length_split {α : Type} (p q r : α → Bool)
    (h : ∀ x, (r x = true ↔ (p x = true ∨ q x = true)) ∧ ¬ (p x = true ∧ q x = true)) :
    ∀ l : List α, (l.filter p).length + (l.filter q).length = (l.filter r).length := by
  intro l
  induction l with
  | nil => rfl
  | cons a l ih =>
    obtain ⟨h1, h2⟩ := h a
    by_cases hp : p a = true <;> by_cases hq : q a = true <;> by_cases hr : r a = true <;>
      simp_all [List.filter_cons] <;> omega

theorem whileBody_sorted_step (samples init : List Sample) (last : Sample) (g w : Nat)
    (st : LoopState) (hs : samples = init ++ [last])
    (hsorted : samples.Pairwise (fun a b => a.nBlockTime ≤ b.nBlockTime))
    (hlt : st.nWindowEnd < last.nBlockTime) (hg : 1 ≤ g) (hgw : g ≤ w)
    (hwe : st.nWindowEnd + 1 = st.nWindowStart + w)
    (hnw : st.nWindowEnd + g < 4294967296)
    (hi : nextStart st =
      (samples.filter (fun s => decide (s.nBlockTime < st.nWindowStart))).length) :
    (whileBody samples g st).out = st.out ++
      [⟨st.nWindowStart, (samplesIn samples st.nWindowStart st.nWindowEnd).length,
        ((samplesIn samples st.nWindowStart st.nWindowEnd).map Sample.nNumberTxs).sum
          % 4294967296⟩] ∧
    (whileBody samples g st).nWindowStart = st.nWindowStart + g ∧
    (whileBody samples g st).nWindowEnd = st.nWindowEnd + g ∧
    nextStart (whileBody samples g st) =
      (samples.filter (fun s => decide (s.nBlockTime < st.nWindowStart + g))).length := by
  have hile : nextStart st ≤ init.length := by
    rw [hi, hs, List.filter_append]
    have : [last].filter (fun s => decide (s.nBlockTime < st.nWindowStart)) = [] := by
      simp [List.filter_cons]; omega
    rw [this, List.append_nil]
    exact List.length_filter_le _ _
  obtain ⟨e1, e2, e3, e4, _⟩ := whileBody_step samples init last g st hs hlt hile
  have hadd1 : addU32 st.nWindowStart g = st.nWindowStart + g := by
    unfold addU32; omega
  have hadd2 : addU32 st.nWindowEnd g = st.nWindowEnd + g := by
    unfold addU32; omega
  have hp1 : samples.Pairwise (fun x y =>
      decide (y.nBlockTime < st.nWindowStart) = true →
        decide (x.nBlockTime < st.nWindowStart) = true) :=
    hsorted.imp (by intro a b hab; simp; omega)
  have hdrop : samples.drop (nextStart st) =
      samples.filter (fun s => !decide (s.nBlockTime < st.nWindowStart)) := by
    rw [hi]; exact drop_filter_length _ samples hp1
  have hsorted2 : (samples.drop (nextStart st)).Pairwise
      (fun a b => a.nBlockTime ≤ b.nBlockTime) := by
    rw [hdrop]; exact hsorted.filter _
  have ht1 : (samples.drop (nextStart st)).takeWhile
        (fun s => decide (s.nBlockTime ≤ st.nWindowEnd)) =
      samplesIn samples st.nWindowStart st.nWindowEnd := by
    rw [takeWhile_eq_filter _ _ (hsorted2.imp (by intro a b hab; simp; omega)), hdrop,
      List.filter_filter]
    unfold samplesIn
    apply List.filter_congr
    intro x _
    rw [Bool.eq_iff_iff]
    simp only [inWindow, Bool.and_eq_true, Bool.not_eq_true', decide_eq_true_eq,
      decide_eq_false_iff_not]
    omega
  have ht2 : ((samples.drop (nextStart st)).takeWhile
        (fun s => decide (s.nBlockTime ≤ st.nWindowEnd ∧
          s.nBlockTime < addU32 st.nWindowStart g))) =
      samples.filter (fun s => decide (st.nWindowStart ≤ s.nBlockTime ∧
        s.nBlockTime < st.nWindowStart + g)) := by
    rw [takeWhile_eq_filter _ _ (hsorted2.imp (by intro a b hab; simp; omega)), hdrop,
      List.filter_filter, hadd1]
    apply List.filter_congr
    intro x _
    rw [Bool.eq_iff_iff]
    simp only [Bool.and_eq_true, Bool.not_eq_true', decide_eq_true_eq,
      decide_eq_false_iff_not]
    omega
  refine ⟨?_, by rw [e2, hadd1], by rw [e3, hadd2], ?_⟩
  · rw [e1, ht1]
  · rw [e4, ht2, hi]
    apply filter_length_split
    intro x
    simp only [Bool.and_eq_true, decide_eq_true_eq]
    omega

theorem whileLoop_windowCounts (samples : List Sample) (nPeriodEnd g w : Nat)
    (hshape : samples = [] ∨ ∃ init last, samples = init ++ [last] ∧ last.nBlockTime = nPeriodEnd)
    (hsorted : samples.Pairwise (fun a b => a.nBlockTime ≤ b.nBlockTime))
    (hg : 1 ≤ g) (hgw : g ≤ w) (hnw : nPeriodEnd + g ≤ 4294967296) :
    ∀ (fuel : Nat) (st : LoopState), st.nWindowEnd + 1 = st.nWindowStart + w →
      nextStart st = (samples.filter (fun s => decide (s.nBlockTime < st.nWindowStart))).length →
      (∀ r ∈ st.out, windowCounts samples w r) →
      ∀ r ∈ (whileLoop samples nPeriodEnd g fuel st).windows, windowCounts samples w r := by
  intro fuel
  induction fuel with
  | zero => intro st _ _ hout; simpa [whileLoop] using hout
  | succ fuel ih =>
    intro st hwe hi hout
    unfold whileLoop
    by_cases hc : st.nWindowEnd < nPeriodEnd
    · rw [if_pos hc]
      rcases hshape with hnil | ⟨init, last, hs, hl⟩
      · subst hnil
        obtain ⟨e1, e2, e3, e4⟩ := whileBody_nil g st
        apply ih
        · rw [e2, e3]; exact hwe
        · rw [e4, hi]; simp
        · rw [e1]; exact hout
      · obtain ⟨e1, e2, e3, e4⟩ := whileBody_sorted_step samples init last g w st hs hsorted
          (by omega) hg hgw hwe (by omega) hi
        apply ih
        · rw [e2, e3]; omega
        · rw [e4, e2]
        · rw [e1]
          intro r hr
          rcases List.mem_append.1 hr with hr | hr
          · exact hout r hr
          · rw [List.mem_singleton] at hr
            subst hr
            have : st.nWindowStart + w - 1 = st.nWindowEnd := by omega
            simp only [windowCounts, this, and_self]
    · rw [if_neg hc]; exact hout

theorem whileLoop_starts (samples init : List Sample) (last : Sample)
    (nPeriodEnd g w nPeriodStart K : Nat)
    (hs : samples = init ++ [last]) (hl : last.nBlockTime = nPeriodEnd)
    (hg : 1 ≤ g) (hw : 1 ≤ w) (hnw : nPeriodEnd + g ≤ 4294967296)
    (hK : ∀ j, nPeriodStart + w + j * g ≤ nPeriodEnd ↔ j < K) :
    ∀ (fuel : Nat) (st : LoopState) (j : Nat), st.nWindowStart = nPeriodStart + j * g →
      st.nWindowEnd + 1 = nPeriodStart + w + j * g →
      nextStart st ≤ init.length →
      ((whileLoop samples nPeriodEnd g fuel st).returned = true ↔ K ≤ j + fuel) ∧
      (K ≤ j + fuel →
        (whileLoop samples nPeriodEnd g fuel st).windows.map WindowRecord.window_start =
          st.out.map WindowRecord.window_start ++
            (List.range' j (K - j)).map (fun i => nPeriodStart + i * g)) := by
  intro fuel
  induction fuel with
  | zero =>
    intro st j h1 h2 _
    have hj := hK j
    simp only [whileLoop, Nat.add_zero, decide_eq_true_eq]
    constructor
    · omega
    · intro hle
      have : K - j = 0 := by omega
      simp [this]
  | succ fuel ih =>
    intro st j h1 h2 h3
    have hj := hK j
    unfold whileLoop
    by_cases hc : st.nWindowEnd < nPeriodEnd
    · rw [if_pos hc]
      obtain ⟨e1, e2, e3, _, e5⟩ := whileBody_step samples init last g st hs (by omega) h3
      have hadd1 : addU32 st.nWindowStart g = st.nWindowStart + g := by
        unfold addU32; omega
      have hadd2 : addU32 st.nWindowEnd g = st.nWindowEnd + g := by
        unfold addU32; omega
      obtain ⟨i1, i2⟩ := ih (whileBody samples g st) (j + 1)
        (by rw [e2, hadd1, h1]; ring) (by rw [e3, hadd2]; rw [Nat.add_mul]; omega) e5
      constructor
      · rw [i1]; omega
      · intro hle
        rw [i2 (by omega), e1]
        have hjK : j < K := by omega
        have : K - j = (K - (j + 1)) + 1 := by omega
        rw [this, List.range'_succ]
        simp [h1]
    · rw [if_neg hc]
      have hKj : K ≤ j := by omega
      constructor
      · simp; omega
      · intro _
        have : K - j = 0 := by omega
        simp [this]

theorem toUnsigned_natCast (n : Nat) (h : n < 4294967296) : toUnsigned (n : Int) = n := by
  unfold toUnsigned; omega

theorem collectSamples_ge (nPeriodStart : Nat) : ∀ (chain : List CBlockIndex) (nTime : Nat)
    (pindex : CBlockIndex), nPeriodStart ≤ nTime →
    ∀ s ∈ collectSamples nPeriodStart nTime pindex chain, nPeriodStart ≤ s.nBlockTime := by
  intro chain
  induction chain with
  | nil => intro nTime pindex _ s hs; simp [collectSamples] at hs
  | cons pprev rest ih =>
    intro nTime pindex h s hs
    unfold collectSamples at hs
    rcases List.mem_cons.1 hs with rfl | hs
    · exact h
    · by_cases hc : pprev.nTime < nPeriodStart
      · rw [if_pos hc] at hs; cases hs
      · rw [if_neg hc] at hs
        exact ih pprev.nTime pprev (by omega) s hs

theorem periodSamples_nil (tip : CBlockIndex) (nPeriod : Int) :
    periodSamples tip [] nPeriod = [] := by
  simp [periodSamples, collectSamples]

theorem periodSamples_shape (tip : CBlockIndex) (rest : List CBlockIndex) (nPeriod : Int)
    (hrest : rest ≠ []) :
    ∃ init, periodSamples tip rest nPeriod = init ++ [⟨tip.nTime, tip.nTxVolume⟩] := by
  cases rest with
  | nil => exact absurd rfl hrest
  | cons pprev rest =>
    unfold periodSamples collectSamples
    rw [List.reverse_cons]
    exact ⟨_, rfl⟩

theorem periodStart_eq (nPeriodEnd p : Nat) (hp1 : 1 ≤ p) (hp : p ≤ nPeriodEnd + 1)
    (hp32 : p < 4294967296) (hend : nPeriodEnd < 4294967296) :
    periodStart nPeriodEnd (p : Int) = nPeriodEnd + 1 - p := by
  unfold periodStart subU32 addU32
  rw [toUnsigned_natCast p hp32]
  omega

theorem getwindowedtxvolume_valid (fuel : Nat) (tip : CBlockIndex) (rest : List CBlockIndex)
    (genesis : CBlockIndex) (p w g : Nat) (hw : 1 ≤ w) (hwp : w ≤ p) (hg : 1 ≤ g) (hgw : g ≤ w)
    (hp32 : p ≤ 2147483647) (hgen : genesis.nTime ≤ tip.nTime) (hnw : p ≤ tip.nTime + 1)
    (hend : tip.nTime < 4294967296) :
    getwindowedtxvolume fuel (tip :: rest) genesis (p : Int) (w : Int) (g : Int) =
      .ok (whileLoop (periodSamples tip rest (p : Int)) tip.nTime g fuel
        ⟨tip.nTime + 1 - p, tip.nTime + w - p, 0, 0, true, []⟩) := by
  have hchk : checkParams (p : Int) (w : Int) (g : Int) = none := by
    rw [checkParams_none_iff _ _ _ (by omega)]; omega
  unfold getwindowedtxvolume
  rw [hchk]
  simp only []
  rw [if_neg (by omega), periodStart_eq tip.nTime p (by omega) hnw (by omega) hend, toUnsigned_natCast w (by omega),
    toUnsigned_natCast g (by omega)]
  have : subU32 (addU32 (tip.nTime + 1 - p) w) 1 = tip.nTime + w - p := by
    unfold subU32 addU32; omega
  rw [this]

theorem ceil_steps (nPeriodEnd p w g : Nat) (hwp : w ≤ p) (hg : 1 ≤ g)
    (hnw : p ≤ nPeriodEnd + 1) (j : Nat) :
    (nPeriodEnd + 1 - p) + w + j * g ≤ nPeriodEnd ↔ j < (p - w + g - 1) / g := by
  rw [Nat.lt_iff_add_one_le, Nat.le_div_iff_mul_le (by omega), Nat.add_mul]
  omega

theorem windowCount_natCast (p w g : Nat) (hwp : w ≤ p) (hg : 1 ≤ g) :
    windowCount (p : Int) (w : Int) (g : Int) = (p - w + g - 1) / g := by
  unfold windowCount
  have : ((p : Int) - (w : Int) + (g : Int) - 1) = ((p - w + g - 1 : Nat) : Int) := by omega
  rw [this, ← Int.natCast_div, Int.toNat_natCast]

theorem whileLoop_nil_stuck (nPeriodEnd g : Nat) : ∀ (fuel : Nat) (st : LoopState),
    st.nWindowEnd < nPeriodEnd → st.out = [] →
    whileLoop [] nPeriodEnd g fuel st = ⟨false, []⟩ := by
  intro fuel
  induction fuel with
  | zero => intro st h1 h2; simp [whileLoop, h1, h2]
  | succ fuel ih =>
    intro st h1 h2
    obtain ⟨e1, _, e3, _⟩ := whileBody_nil g st
    unfold whileLoop
    rw [if_pos h1]
    exact ih _ (by rw [e3]; exact h1) (by rw [e1]; exact h2)

theorem collectSamples_eq_filter (nPeriodStart : Nat) : ∀ (chain : List CBlockIndex)
    (pindex : CBlockIndex),
    (pindex :: chain).Pairwise (fun a b => b.nTime ≤ a.nTime) →
    nPeriodStart ≤ pindex.nTime → (∃ b ∈ chain, b.nTime < nPeriodStart) →
    collectSamples nPeriodStart pindex.nTime pindex chain =
      ((pindex :: chain).filter (fun b => decide (nPeriodStart ≤ b.nTime))).map toSample := by
  intro chain
  induction chain with
  | nil => intro pindex _ _ h; obtain ⟨b, hb, _⟩ := h; cases hb
  | cons pprev rest ih =>
    intro pindex hpw hge hold
    rw [List.pairwise_cons] at hpw
    obtain ⟨_, hpw2⟩ := hpw
    unfold collectSamples
    rw [List.filter_cons_of_pos (by simpa using hge), List.map_cons]
    congr 1
    by_cases hc : pprev.nTime < nPeriodStart
    · rw [if_pos hc]
      have : (pprev :: rest).filter (fun b => decide (nPeriodStart ≤ b.nTime)) = [] := by
        rw [List.filter_eq_nil_iff]
        intro b hb
        rw [List.pairwise_cons] at hpw2
        rcases List.mem_cons.1 hb with rfl | hb
        · simp; omega
        · have := hpw2.1 b hb
          simp; omega
      rw [this]; rfl
    · rw [if_neg hc]
      apply ih pprev hpw2 (by omega)
      obtain ⟨b, hb, hlt⟩ := hold
      rcases List.mem_cons.1 hb with rfl | hb
      · exact absurd hlt hc
      · exact ⟨b, hb, hlt⟩

theorem filter_sum_split {α : Type} (f : α → Nat) (p q r : α → Bool)
    (h : ∀ x, (r x = true ↔ (p x = true ∨ q x = true)) ∧ ¬ (p x = true ∧ q x = true)) :
    ∀ l : List α, ((l.filter p).map f).sum + ((l.filter q).map f).sum =
      ((l.filter r).map f).sum := by
  intro l
  induction l with
  | nil => rfl
  | cons a l ih =>
    obtain ⟨h1, h2⟩ := h a
    by_cases hp : p a = true <;> by_cases hq : q a = true <;> by_cases hr : r a = true <;>
      simp_all [List.filter_cons] <;> omega

theorem filter_sum_le {α : Type} (f : α → Nat) (p : α → Bool) :
    ∀ l : List α, ((l.filter p).map f).sum ≤ (l.map f).sum := by
  intro l
  induction l with
  | nil => simp
  | cons a l ih =>
    by_cases hp : p a = true <;> simp [List.filter_cons, hp] <;> omega

theorem sum_disjoint_windows (samples : List Sample) (nPeriodStart w : Nat) (hw : 1 ≤ w) :
    ∀ K : Nat, ((List.range K).map (fun i =>
        ((samplesIn samples (nPeriodStart + i * w) (nPeriodStart + i * w + w - 1)).map
          Sample.nNumberTxs).sum)).sum =
      ((samples.filter (fun s => decide (nPeriodStart ≤ s.nBlockTime ∧
        s.nBlockTime < nPeriodStart + K * w))).map Sample.nNumberTxs).sum := by
  intro K
  induction K with
  | zero =>
    have : samples.filter (fun s => decide (nPeriodStart ≤ s.nBlockTime ∧
        s.nBlockTime < nPeriodStart + 0 * w)) = [] := by
      rw [List.filter_eq_nil_iff]; intro s _; simp
    rw [this]; rfl
  | succ K ih =>
    rw [List.range_succ, List.map_append, List.sum_append, ih]
    simp only [List.map_cons, List.map_nil, List.sum_cons, List.sum_nil, Nat.add_zero]
    unfold samplesIn
    apply filter_sum_split
    intro x
    simp only [inWindow, decide_eq_true_eq, Nat.add_mul, Nat.one_mul]
    omega

theorem periodSamples_eq_filter (tip : CBlockIndex) (rest : List CBlockIndex) (p : Nat)
    (hp1 : 1 ≤ p) (hp32 : p < 4294967296) (hnw : p ≤ tip.nTime + 1)
    (hend : tip.nTime < 4294967296)
    (hchain : (tip :: rest).Pairwise (fun a b => b.nTime ≤ a.nTime))
    (hold : ∃ b ∈ rest, b.nTime < tip.nTime + 1 - p) :
    periodSamples tip rest (p : Int) =
      (((tip :: rest).filter (fun b => decide (tip.nTime + 1 - p ≤ b.nTime))).map
        toSample).reverse := by
  unfold periodSamples
  rw [periodStart_eq tip.nTime p hp1 hnw hp32 hend,
    collectSamples_eq_filter _ rest tip hchain (by omega) hold]

theorem pairwise_samples_of_chain (chain : List CBlockIndex)
    (hchain : chain.Pairwise (fun a b => b.nTime ≤ a.nTime)) (q : CBlockIndex → Bool) :
    (((chain.filter q).map toSample).reverse).Pairwise
      (fun a b => a.nBlockTime ≤ b.nBlockTime) := by
  rw [List.pairwise_reverse, List.pairwise_map]
  exact (hchain.filter q).imp (by intro a b h; exact h)

theorem sum_samples_filter (chain : List CBlockIndex) (q : CBlockIndex → Bool)
    (P : Nat → Bool) :
    (((((chain.filter q).map toSample).reverse).filter (fun s => P s.nBlockTime)).map
      Sample.nNumberTxs).sum =
    ((chain.filter (fun b => P b.nTime && q b)).map CBlockIndex.nTxVolume).sum := by
  rw [List.filter_reverse, List.map_reverse, List.sum_reverse, List.filter_map, List.map_map,
    List.filter_filter]
  rfl

theorem disjoint_sum_core (fuel : Nat) (tip : CBlockIndex) (rest : List CBlockIndex)
    (p w : Nat) (hw : 1 ≤ w) (hwp : w ≤ p) (hp32 : p ≤ 2147483647)
    (hnw : p ≤ tip.nTime + 1) (hnw2 : tip.nTime + w < 4294967296)
    (hchain : (tip :: rest).Pairwise (fun a b => b.nTime ≤ a.nTime))
    (hold : ∃ b ∈ rest, b.nTime < tip.nTime + 1 - p)
    (hsum : (((tip :: rest).filter (fun b => decide (tip.nTime + 1 - p ≤ b.nTime))).map
      CBlockIndex.nTxVolume).sum < 4294967296)
    (hfuel : (p - w + w - 1) / w ≤ fuel) (o : Outcome)
    (ho : o = whileLoop (periodSamples tip rest (p : Int)) tip.nTime w fuel
      ⟨tip.nTime + 1 - p, tip.nTime + w - p, 0, 0, true, []⟩) :
    o.returned = true ∧
    (o.windows.map WindowRecord.tx_volume).sum =
      (((tip :: rest).filter (fun b =>
          decide (tip.nTime + 1 - p ≤ b.nTime ∧ b.nTime ≤ tip.nTime) &&
          o.windows.any (fun r => decide (r.window_start ≤ b.nTime ∧
            b.nTime ≤ r.window_start + w - 1)))).map CBlockIndex.nTxVolume).sum := by
  have hrest : rest ≠ [] := by
    obtain ⟨b, hb, _⟩ := hold
    intro h; rw [h] at hb; cases hb
  have hend : tip.nTime < 4294967296 := by omega
  have hS := periodSamples_eq_filter tip rest p (by omega) (by omega) hnw hend hchain hold
  obtain ⟨init, hinit⟩ := periodSamples_shape tip rest (p : Int) hrest
  have hsorted : (periodSamples tip rest (p : Int)).Pairwise
      (fun a b => a.nBlockTime ≤ b.nBlockTime) := by
    rw [hS]; exact pairwise_samples_of_chain _ hchain _
  obtain ⟨r1, r2⟩ := whileLoop_starts (periodSamples tip rest (p : Int)) init
    ⟨tip.nTime, tip.nTxVolume⟩ tip.nTime w w (tip.nTime + 1 - p) ((p - w + w - 1) / w)
    hinit rfl hw hw (by omega) (ceil_steps tip.nTime p w w hwp hw hnw) fuel
    ⟨tip.nTime + 1 - p, tip.nTime + w - p, 0, 0, true, []⟩ 0
    (by simp) (by simp only []; omega) (by simp [nextStart])
  simp only [Nat.zero_add, List.map_nil, List.nil_append, Nat.sub_zero] at r1 r2
  rw [← ho] at r1 r2
  have hstarts := r2 hfuel
  have hcounts := whileLoop_windowCounts (periodSamples tip rest (p : Int)) tip.nTime w w
    (Or.inr ⟨init, _, hinit, rfl⟩) hsorted hw (le_refl _) (by omega) fuel
    ⟨tip.nTime + 1 - p, tip.nTime + w - p, 0, 0, true, []⟩
    (by simp only []; omega)
    (by
      have : (periodSamples tip rest (p : Int)).filter
          (fun s => decide (s.nBlockTime < tip.nTime + 1 - p)) = [] := by
        rw [List.filter_eq_nil_iff]
        intro s hs
        have := collectSamples_ge (periodStart tip.nTime (p : Int)) rest tip.nTime tip
          (by rw [periodStart_eq tip.nTime p (by omega) hnw (by omega) hend]; omega) s
          (by simpa [periodSamples] using hs)
        rw [periodStart_eq tip.nTime p (by omega) hnw (by omega) hend] at this
        simp; omega
      simp [nextStart, this])
    (by intro r hr; cases hr)
  rw [← ho] at hcounts
  refine ⟨r1.2 hfuel, ?_⟩
  have htotal : ((periodSamples tip rest (p : Int)).map Sample.nNumberTxs).sum
      < 4294967296 := by
    rw [hS, List.map_reverse, List.sum_reverse, List.map_map]
    exact hsum
  have hV : ∀ a b, ((samplesIn (periodSamples tip rest (p : Int)) a b).map
      Sample.nNumberTxs).sum < 4294967296 := fun a b =>
    lt_of_le_of_lt (filter_sum_le _ _ _) htotal
  have hvol : o.windows.map WindowRecord.tx_volume =
      (List.range ((p - w + w - 1) / w)).map (fun i =>
        ((samplesIn (periodSamples tip rest (p : Int)) (tip.nTime + 1 - p + i * w)
          (tip.nTime + 1 - p + i * w + w - 1)).map Sample.nNumberTxs).sum) := by
    have e1 : o.windows.map WindowRecord.tx_volume =
        (o.windows.map WindowRecord.window_start).map (fun a =>
          ((samplesIn (periodSamples tip rest (p : Int)) a (a + w - 1)).map
            Sample.nNumberTxs).sum) := by
      rw [List.map_map]
      apply List.map_congr_left
      intro r hr
      rw [(hcounts r hr).2, Nat.mod_eq_of_lt (hV _ _)]
      rfl
    rw [e1, hstarts, List.map_map, ← List.range_eq_range']
    rfl
  rw [hvol, sum_disjoint_windows _ _ _ hw, hS,
    sum_samples_filter (tip :: rest) _
      (fun t => decide (tip.nTime + 1 - p ≤ t ∧ t < tip.nTime + 1 - p + (p - w + w - 1) / w * w))]
  congr 2
  apply List.filter_congr
  intro b _
  rw [Bool.eq_iff_iff]
  simp only [Bool.and_eq_true, decide_eq_true_eq, List.any_eq_true]
  constructor
  · rintro ⟨⟨h1, h2⟩, _⟩
    have hi : (b.nTime - (tip.nTime + 1 - p)) / w < (p - w + w - 1) / w := by
      rw [Nat.div_lt_iff_lt_mul (by omega)]; omega
    have hmem : tip.nTime + 1 - p + (b.nTime - (tip.nTime + 1 - p)) / w * w ∈
        List.map WindowRecord.window_start o.windows := by
      rw [hstarts, List.mem_map]
      exact ⟨_, by rw [List.mem_range'_1, Nat.zero_add]; exact ⟨Nat.zero_le _, hi⟩, rfl⟩
    rw [List.mem_map] at hmem
    obtain ⟨r, hr, hrs⟩ := hmem
    have hd1 := Nat.div_mul_le_self (b.nTime - (tip.nTime + 1 - p)) w
    have hd2 := @Nat.lt_div_mul_add (b.nTime - (tip.nTime + 1 - p)) w (by omega)
    have hc := (ceil_steps tip.nTime p w w hwp hw hnw
      ((b.nTime - (tip.nTime + 1 - p)) / w)).2 hi
    refine ⟨⟨h1, by omega⟩, r, hr, ?_⟩
    omega
  · rintro ⟨⟨h1, _⟩, r, hr, h3, h4⟩
    have hmem : r.window_start ∈ List.map WindowRecord.window_start o.windows :=
      List.mem_map_of_mem _ hr
    rw [hstarts, List.mem_map] at hmem
    obtain ⟨i, hi, hi2⟩ := hmem
    rw [List.mem_range'_1] at hi
    have hmul : (i + 1) * w ≤ (p - w + w - 1) / w * w := Nat.mul_le_mul_right _ (by omega)
    rw [Nat.add_mul] at hmul
    refine ⟨⟨h1, ?_⟩, h1⟩
    omega

/-! ## Further lemmas on the kernel rate -/

theorem elapsedTime_of_few_stakes (pindexBest : List CBlockIndex)
    (h : (pindexBest.filter (fun b => b.fProofOfStake)).length ≤ 1) :
    elapsedTime pindexBest = 0 := by
  unfold elapsedTime sampledStakes
  generalize pindexBest.filter (fun b => b.fProofOfStake) = l at h
  match l, h with
  | [], _ => decide
  | [a], _ => simp [stakeGaps]; decide
  | _ :: _ :: _, h => simp at h

/-- C1: a call of `getwindowedtxvolume` whose parameters violate a bound (`period <= 0`,
`period > 36525*86400`, `windowSize < 1`, `windowSize > period`, `granularity < 1` or
`granularity > windowSize`) fails with one of the six parameter errors, the same error for
every chain, every genesis record and an absent tip, and so produces no window record.
`nPeriod` is a C `int`. -/
theorem invalid_parameters_rejected (nPeriod nWindow nGranularity : Int)
    (hint : -2147483648 ≤ nPeriod ∧ nPeriod ≤ 2147483647)
    (hbad : nPeriod ≤ 0 ∨ nPeriod > 36525 * 86400 ∨ nWindow < 1 ∨ nWindow > nPeriod ∨
      nGranularity < 1 ∨ nGranularity > nWindow) :
    ∃ e, e.isInvalidParameter = true ∧
      ∀ (fuel : Nat) (pindexBest : List CBlockIndex) (pindexGenesisBlock : CBlockIndex),
        getwindowedtxvolume fuel pindexBest pindexGenesisBlock nPeriod nWindow nGranularity
          = .error e := by
  obtain ⟨e, he, hc⟩ := checkParams_of_violation nPeriod nWindow nGranularity hint hbad
  refine ⟨e, he, ?_⟩
  intro fuel pindexBest pindexGenesisBlock
  unfold getwindowedtxvolume
  rw [hc]

/-- Witness for C1: `windowSize = 60 > period = 50`. -/
theorem invalid_parameters_rejected_witness :
    ∃ e, e.isInvalidParameter = true ∧
      ∀ (fuel : Nat) (pindexBest : List CBlockIndex) (pindexGenesisBlock : CBlockIndex),
        getwindowedtxvolume fuel pindexBest pindexGenesisBlock 50 60 10 = .error e :=
  invalid_parameters_rejected 50 60 10 (by decide) (by decide)

/-- C4, counterexample: for `nBits = 0xff000001` (shift 255, mantissa 1) the division loop
underflows and `GetDifficulty` returns 0, not `65535 / 1 * 256^(29 - 255)`; for
`nBits = 0x1d000007` (shift 29, mantissa 7) no loop runs and the result is the `double`
nearest to `65535 / 7`, not the rational `65535 / 7`. -/
theorem GetDifficulty_underflow_counterexample :
    GetDifficulty 100 [] (some ⟨5, 0xff000001, 1000, 1, false⟩) = 0 ∧
      GetDifficulty 100 [] (some ⟨5, 0xff000001, 1000, 1, false⟩) ≠
        65535 / (((0xff000001 &&& 0x00ffffff : Nat) : ℚ)) *
          (256 : ℚ) ^ ((29 : ℤ) - (((0xff000001 >>> 24) &&& 0xff : Nat) : ℤ)) ∧
      GetDifficulty 100 [] (some ⟨5, 0x1d000007, 1000, 1, false⟩) ≠
        65535 / (((0x1d000007 &&& 0x00ffffff : Nat) : ℚ)) *
          (256 : ℚ) ^ ((29 : ℤ) - (((0x1d000007 >>> 24) &&& 0xff : Nat) : ℤ)) := by
  have hu : GetDifficulty 100 [] (some ⟨5, 0xff000001, 1000, 1, false⟩) = 0 := by
    rw [GetDifficulty_some _ _ _ (by decide)]
    exact decodeBits_underflow
  refine ⟨hu, ?_, ?_⟩
  · rw [hu]
    have h1 : (0xff000001 &&& 0x00ffffff : Nat) = 1 := by decide
    rw [h1]
    apply ne_of_lt
    positivity
  · rw [GetDifficulty_some _ _ _ (by decide)]
    have h1 : (0x1d000007 &&& 0x00ffffff : Nat) = 7 := by decide
    have h2 : ((0x1d000007 >>> 24) &&& 0xff : Nat) = 29 := by decide
    have hd := decodeBits_eq 0x1d000007 (by decide) (by decide)
    simp only [] at hd
    rw [hd, h1, h2]
    norm_num
    exact roundDouble_seventh_ne

/-- C4, amended: for a node below the fork height whose compact difficulty has a non-zero
mantissa and a shift of at most 155, `GetDifficulty` returns
`rd(65535 / mantissa) * 256^(29 - shift)` with `shift = (nBits >> 24) & 0xff`,
`mantissa = nBits & 0x00ffffff` and `rd` the rounding to the nearest `double`: the quotient
is rounded once, and every step of the two multiply/divide-by-256 loops is then exact. -/
theorem GetDifficulty_decodes_rounded (forkHeight : Int) (pindexBest : List CBlockIndex)
    (b : CBlockIndex) (hfork : b.nHeight < forkHeight)
    (hmantissa : 1 ≤ b.nBits &&& 0x00ffffff) (hshift : (b.nBits >>> 24) &&& 0xff ≤ 155) :
    GetDifficulty forkHeight pindexBest (some b) =
      roundDouble (65535 / (((b.nBits &&& 0x00ffffff : Nat) : ℚ))) *
        (256 : ℚ) ^ ((29 : ℤ) - (((b.nBits >>> 24) &&& 0xff : Nat) : ℤ)) := by
  rw [GetDifficulty_some forkHeight pindexBest b hfork, decodeBits_eq _ hmantissa hshift]

/-- Witness for C4 (amended): `nBits = 0x9b000007` (shift 155, mantissa 7) below fork
height 100. -/
theorem GetDifficulty_decodes_rounded_witness :
    GetDifficulty 100 [] (some ⟨5, 0x9b000007, 1000, 1, false⟩) =
      roundDouble (65535 / (((0x9b000007 &&& 0x00ffffff : Nat) : ℚ))) *
        (256 : ℚ) ^ ((29 : ℤ) - (((0x9b000007 >>> 24) &&& 0xff : Nat) : ℤ)) :=
  GetDifficulty_decodes_rounded 100 [] ⟨5, 0x9b000007, 1000, 1, false⟩ (by decide) (by decide)
    (by decide)

/-- C7, counterexample: `farStakeChain` has exactly one proof-of-stake block among the first
72 blocks walking backward from the tip, yet `GetPoSKernelPS` is not 0: the walk goes on
until 72 stake blocks are handled and meets the second stake block further down. -/
theorem kernel_rate_far_stake_counterexample :
    ((farStakeChain.take 72).filter (fun b => b.fProofOfStake)).length ≤ 1 ∧
      GetPoSKernelPS 100 farStakeChain ≠ 0 := by
  refine ⟨by decide, ?_⟩
  have hel : elapsedTime farStakeChain = 1000 := by decide
  have hst : sampledStakes farStakeChain =
      [⟨80, 0x1d00ffff, 2000, 1, true⟩, ⟨8, 0x1d00ffff, 1000, 1, true⟩] := by decide
  have hws : weightedSum 100 farStakeChain = 2 * 4294967296 := by
    simp [weightedSum, hst, GetDifficulty_some, decodeBits_one]
    norm_num
  rw [GetPoSKernelPS_eq, hel, hws]
  norm_num

/-- C7, amended: a chain with at most one proof-of-stake block among all blocks reachable
from the tip yields `GetPoSKernelPS = 0`. -/
theorem kernel_rate_zero_single_stake (forkHeight : Int) (pindexBest : List CBlockIndex)
    (h : (pindexBest.filter (fun b => b.fProofOfStake)).length ≤ 1) :
    GetPoSKernelPS forkHeight pindexBest = 0 := by
  rw [GetPoSKernelPS_eq, elapsedTime_of_few_stakes pindexBest h]
  simp

/-- Witness for C7 (amended): one stake tip on top of ten proof-of-work blocks. -/
theorem kernel_rate_zero_single_stake_witness :
    GetPoSKernelPS 100 (⟨10, 0x1d00ffff, 1000, 1, true⟩ :: workBlocks 10 900) = 0 :=
  kernel_rate_zero_single_stake 100 (⟨10, 0x1d00ffff, 1000, 1, true⟩ :: workBlocks 10 900)
    (by decide)

/-- C2, counterexample: the two samples at times 940 and 950 lie in the emitted window
`[901, 950]` and their transaction counts add up to 4294967296, but the window's
`tx_volume` is 0: the total is accumulated in an `unsigned int`. -/
theorem window_total_wraps_counterexample :
    getwindowedtxvolume 5 overflowChain genesis800 100 50 50 = .ok ⟨true, [⟨901, 2, 0⟩]⟩ ∧
      (periodSamples ⟨3, 0x1d00ffff, 1000, 1, false⟩ overflowChain.tail 100).Pairwise
        (fun a b => a.nBlockTime ≤ b.nBlockTime) ∧
      ((samplesIn (periodSamples ⟨3, 0x1d00ffff, 1000, 1, false⟩ overflowChain.tail 100)
        901 (901 + 50 - 1)).map Sample.nNumberTxs).sum = 4294967296 := by
  refine ⟨rfl, by decide, by decide⟩

/-- C2, amended: for a valid call on a chain whose collected sample times are
non-decreasing, without 32-bit wrap of the window bounds (`tip.time >= period - 1` and
`tip.time + granularity < 2^32`), every window record pushed (whatever the fuel) has as
`number_blocks` the number of collected samples with
`window_start <= time <= window_start + windowSize - 1`, and as `tx_volume` the sum of
their transaction counts modulo 2^32; this holds for overlapping windows too. When the tip
has a predecessor and the fuel covers `ceil((period - windowSize) / granularity)`
iterations, the call returns that many windows. -/
theorem windows_count_samples_modulo (fuel : Nat) (tip : CBlockIndex)
    (rest : List CBlockIndex) (genesis : CBlockIndex) (nPeriod nWindow nGranularity : Int)
    (hp32 : nPeriod ≤ 2147483647) (hw : 1 ≤ nWindow) (hwp : nWindow ≤ nPeriod)
    (hg : 1 ≤ nGranularity) (hgw : nGranularity ≤ nWindow)
    (hgen : genesis.nTime ≤ tip.nTime)
    (hsorted : (periodSamples tip rest nPeriod).Pairwise
      (fun a b => a.nBlockTime ≤ b.nBlockTime))
    (hnw1 : nPeriod - 1 ≤ tip.nTime) (hnw2 : tip.nTime + nGranularity < 4294967296) :
    ∃ o, getwindowedtxvolume fuel (tip :: rest) genesis nPeriod nWindow nGranularity = .ok o ∧
      (∀ r ∈ o.windows,
        r.number_blocks =
          (samplesIn (periodSamples tip rest nPeriod) r.window_start
            (r.window_start + nWindow.toNat - 1)).length ∧
        r.tx_volume =
          ((samplesIn (periodSamples tip rest nPeriod) r.window_start
            (r.window_start + nWindow.toNat - 1)).map Sample.nNumberTxs).sum % 4294967296) ∧
      (rest ≠ [] → windowCount nPeriod nWindow nGranularity ≤ fuel →
        o.returned = true ∧ o.windows.length = windowCount nPeriod nWindow nGranularity) := by
  lift nPeriod to ℕ using (by omega) with p
  lift nWindow to ℕ using (by omega) with w
  lift nGranularity to ℕ using (by omega) with g
  have hw' : 1 ≤ w := by omega
  have hwp' : w ≤ p := by omega
  have hg' : 1 ≤ g := by omega
  have hgw' : g ≤ w := by omega
  have hnw : p ≤ tip.nTime + 1 := by omega
  have hend : tip.nTime < 4294967296 := by omega
  rw [getwindowedtxvolume_valid fuel tip rest genesis p w g hw' hwp' hg' hgw' (by omega)
    hgen hnw hend]
  refine ⟨_, rfl, ?_, ?_⟩
  swap
  · intro hrest hK
    rw [windowCount_natCast p w g hwp' hg'] at hK ⊢
    obtain ⟨init, hinit⟩ := periodSamples_shape tip rest (p : Int) hrest
    obtain ⟨r1, r2⟩ := whileLoop_starts (periodSamples tip rest (p : Int)) init
      ⟨tip.nTime, tip.nTxVolume⟩ tip.nTime g w (tip.nTime + 1 - p) ((p - w + g - 1) / g)
      hinit rfl hg' hw' (by omega) (ceil_steps tip.nTime p w g hwp' hg' hnw) fuel
      ⟨tip.nTime + 1 - p, tip.nTime + w - p, 0, 0, true, []⟩ 0
      (by simp) (by simp only []; omega) (by simp [nextStart])
    simp only [Nat.zero_add, List.map_nil, List.nil_append, Nat.sub_zero] at r1 r2
    refine ⟨r1.2 hK, ?_⟩
    have hlen := congrArg List.length (r2 hK)
    simpa using hlen
  have hshape : periodSamples tip rest (p : Int) = [] ∨
      ∃ init last, periodSamples tip rest (p : Int) = init ++ [last] ∧
        last.nBlockTime = tip.nTime := by
    cases rest with
    | nil => exact Or.inl (periodSamples_nil tip _)
    | cons b rest =>
      obtain ⟨init, hinit⟩ := periodSamples_shape tip (b :: rest) (p : Int) (by simp)
      exact Or.inr ⟨init, _, hinit, rfl⟩
  have hstart : (periodSamples tip rest (p : Int)).filter
      (fun s => decide (s.nBlockTime < tip.nTime + 1 - p)) = [] := by
    rw [List.filter_eq_nil_iff]
    intro s hs
    have := collectSamples_ge (periodStart tip.nTime (p : Int)) rest tip.nTime tip
      (by rw [periodStart_eq tip.nTime p (by omega) hnw (by omega) hend]; omega) s
      (by simpa [periodSamples] using hs)
    rw [periodStart_eq tip.nTime p (by omega) hnw (by omega) hend] at this
    simp; omega
  have hcounts := whileLoop_windowCounts (periodSamples tip rest (p : Int)) tip.nTime g w
    hshape hsorted hg' hgw' (by omega) fuel
    ⟨tip.nTime + 1 - p, tip.nTime + w - p, 0, 0, true, []⟩
    (by simp only []; omega) (by simp [nextStart, hstart]) (by intro r hr; cases hr)
  intro r hr
  simpa [windowCounts] using hcounts r hr

/-- Witness for C2 (amended): period 100, windows of 50 seconds every 10 seconds. -/
theorem windows_count_samples_modulo_witness :
    ∃ o, getwindowedtxvolume 10 (overlapTip :: overlapRest) genesis800 100 50 10 = .ok o ∧
      (∀ r ∈ o.windows,
        r.number_blocks =
          (samplesIn (periodSamples overlapTip overlapRest 100) r.window_start
            (r.window_start + (50 : Int).toNat - 1)).length ∧
        r.tx_volume =
          ((samplesIn (periodSamples overlapTip overlapRest 100) r.window_start
            (r.window_start + (50 : Int).toNat - 1)).map Sample.nNumberTxs).sum
              % 4294967296) ∧
      (overlapRest ≠ [] → windowCount 100 50 10 ≤ 10 →
        o.returned = true ∧ o.windows.length = windowCount 100 50 10) :=
  windows_count_samples_modulo 10 overlapTip overlapRest genesis800 100 50 10
    (by decide) (by decide) (by decide) (by decide) (by decide) (by decide) (by decide)
    (by decide) (by decide)

/-- C3, counterexample: with `granularity = windowSize = 50` the only emitted window is
`[901, 950]`. On `overflowChain` its `tx_volume` is 0 while the chain nodes with time in
`[901, 1000]` and inside that window carry 4294967296 transactions (the window total is an
`unsigned int`). On the two-block chain its `tx_volume` is 0 while the genesis block, at
time 901 inside that window, carries 5 transactions (the node without predecessor is never
collected). -/
theorem disjoint_sum_wraps_counterexample :
    (∃ o, getwindowedtxvolume 5 overflowChain genesis800 100 50 50 = .ok o ∧
      (o.windows.map WindowRecord.tx_volume).sum = 0 ∧
      ((overflowChain.filter (fun b =>
          decide (901 ≤ b.nTime ∧ b.nTime ≤ 1000) &&
          o.windows.any (fun r => decide (r.window_start ≤ b.nTime ∧
            b.nTime ≤ r.window_start + 50 - 1)))).map CBlockIndex.nTxVolume).sum
        = 4294967296) ∧
    (∃ o, getwindowedtxvolume 5 [tip1000, genesis901] genesis901 100 50 50 = .ok o ∧
      (o.windows.map WindowRecord.tx_volume).sum = 0 ∧
      (([tip1000, genesis901].filter (fun b =>
          decide (901 ≤ b.nTime ∧ b.nTime ≤ 1000) &&
          o.windows.any (fun r => decide (r.window_start ≤ b.nTime ∧
            b.nTime ≤ r.window_start + 50 - 1)))).map CBlockIndex.nTxVolume).sum = 5) :=
  ⟨⟨⟨true, [⟨901, 2, 0⟩]⟩, rfl, by decide, by decide⟩,
   ⟨⟨true, [⟨901, 0, 0⟩]⟩, rfl, by decide, by decide⟩⟩

/-- C3, amended: for a valid call with `granularity = windowSize` and enough fuel, on a
chain with non-decreasing block times that reaches back before `periodStart`, without
32-bit wrap (`tip.time >= period - 1`, `tip.time + windowSize < 2^32`, fewer than 2^32
transactions in the period), the call returns and the sum of `tx_volume` over the emitted
windows is the sum of `nTxVolume` over the chain nodes whose time lies in
`[periodStart, periodEnd]` and inside one of the emitted windows. -/
theorem disjoint_windows_sum (fuel : Nat) (tip : CBlockIndex) (rest : List CBlockIndex)
    (genesis : CBlockIndex) (nPeriod nWindow : Int)
    (hp32 : nPeriod ≤ 2147483647) (hw : 1 ≤ nWindow) (hwp : nWindow ≤ nPeriod)
    (hgen : genesis.nTime ≤ tip.nTime)
    (hchain : (tip :: rest).Pairwise (fun a b => b.nTime ≤ a.nTime))
    (hold : ∃ b ∈ rest, (b.nTime : Int) < tip.nTime - nPeriod + 1)
    (hnw1 : nPeriod - 1 ≤ tip.nTime) (hnw2 : tip.nTime + nWindow < 4294967296)
    (hsum : (((tip :: rest).filter
      (fun b => decide ((tip.nTime : Int) - nPeriod + 1 ≤ b.nTime))).map
        CBlockIndex.nTxVolume).sum < 4294967296)
    (hfuel : windowCount nPeriod nWindow nWindow ≤ fuel) :
    ∃ o, getwindowedtxvolume fuel (tip :: rest) genesis nPeriod nWindow nWindow = .ok o ∧
      o.returned = true ∧
      (o.windows.map WindowRecord.tx_volume).sum =
        (((tip :: rest).filter (fun b =>
          decide ((tip.nTime : Int) - nPeriod + 1 ≤ b.nTime ∧ b.nTime ≤ tip.nTime) &&
          o.windows.any (fun r => decide ((r.window_start : Int) ≤ b.nTime ∧
            (b.nTime : Int) ≤ r.window_start + nWindow - 1)))).map
              CBlockIndex.nTxVolume).sum := by
  lift nPeriod to ℕ using (by omega) with p
  lift nWindow to ℕ using (by omega) with w
  have hw' : 1 ≤ w := by omega
  have hwp' : w ≤ p := by omega
  have hnw : p ≤ tip.nTime + 1 := by omega
  have hend : tip.nTime < 4294967296 := by omega
  have e1 : ∀ b : CBlockIndex, decide ((tip.nTime : Int) - (p : Int) + 1 ≤ b.nTime) =
      decide (tip.nTime + 1 - p ≤ b.nTime) := by
    intro b; rw [decide_eq_decide]; omega
  have e2 : ∀ b : CBlockIndex,
      decide ((tip.nTime : Int) - (p : Int) + 1 ≤ b.nTime ∧ b.nTime ≤ tip.nTime) =
      decide (tip.nTime + 1 - p ≤ b.nTime ∧ b.nTime ≤ tip.nTime) := by
    intro b; rw [decide_eq_decide]; omega
  have e3 : ∀ (b : CBlockIndex) (r : WindowRecord),
      decide ((r.window_start : Int) ≤ b.nTime ∧
        (b.nTime : Int) ≤ r.window_start + (w : Int) - 1) =
      decide (r.window_start ≤ b.nTime ∧ b.nTime ≤ r.window_start + w - 1) := by
    intro b r; rw [decide_eq_decide]; omega
  simp only [e1] at hsum
  simp only [e2, e3]
  rw [getwindowedtxvolume_valid fuel tip rest genesis p w w hw' hwp' hw' (le_refl _) (by omega)
    hgen hnw hend]
  rw [windowCount_natCast p w w hwp' hw'] at hfuel
  obtain ⟨h1, h2⟩ := disjoint_sum_core fuel tip rest p w hw' hwp' (by omega) hnw (by omega)
    hchain (by obtain ⟨b, hb, hlt⟩ := hold; exact ⟨b, hb, by omega⟩) hsum hfuel _ rfl
  exact ⟨_, rfl, h1, h2⟩

/-- Witness for C3 (amended): period 100 cut into windows of 30 seconds. -/
theorem disjoint_windows_sum_witness :
    ∃ o, getwindowedtxvolume 10 (overlapTip :: overlapRest) genesis800 100 30 30 = .ok o ∧
      o.returned = true ∧
      (o.windows.map WindowRecord.tx_volume).sum =
        (((overlapTip :: overlapRest).filter (fun b =>
          decide ((overlapTip.nTime : Int) - 100 + 1 ≤ b.nTime ∧ b.nTime ≤ overlapTip.nTime) &&
          o.windows.any (fun r => decide ((r.window_start : Int) ≤ b.nTime ∧
            (b.nTime : Int) ≤ r.window_start + 30 - 1)))).map
              CBlockIndex.nTxVolume).sum :=
  disjoint_windows_sum 10 overlapTip overlapRest genesis800 100 30
    (by decide) (by decide) (by decide) (by decide) (by decide)
    ⟨genesis800, by decide, by decide⟩ (by decide) (by decide)
    (by decide) (by decide)

/-- C10: for a valid call whose tip has a predecessor, without 32-bit wrap
(`tip.time >= period - 1` and `tip.time + granularity < 2^32`) and whatever the order of the
timestamps, the call returns exactly when the fuel covers
`ceil((period - windowSize) / granularity)` iterations, and then the window starts are
`periodStart + k * granularity` for `k` below that count, with
`periodStart = tip.time - period + 1`; every window ends strictly before `tip.time`, and
`windowSize = period` gives no window. -/
theorem window_starts_are_arithmetic (fuel : Nat) (tip : CBlockIndex)
    (rest : List CBlockIndex) (genesis : CBlockIndex) (nPeriod nWindow nGranularity : Int)
    (hrest : rest ≠ []) (hp32 : nPeriod ≤ 2147483647)
    (hw : 1 ≤ nWindow) (hwp : nWindow ≤ nPeriod)
    (hg : 1 ≤ nGranularity) (hgw : nGranularity ≤ nWindow)
    (hgen : genesis.nTime ≤ tip.nTime)
    (hnw1 : nPeriod - 1 ≤ tip.nTime) (hnw2 : tip.nTime + nGranularity < 4294967296) :
    ∃ o, getwindowedtxvolume fuel (tip :: rest) genesis nPeriod nWindow nGranularity = .ok o ∧
      (o.returned = true ↔ windowCount nPeriod nWindow nGranularity ≤ fuel) ∧
      (windowCount nPeriod nWindow nGranularity ≤ fuel →
        o.windows.map (fun r => (r.window_start : Int)) =
          (List.range (windowCount nPeriod nWindow nGranularity)).map
            (fun k : Nat => (tip.nTime : Int) - nPeriod + 1 + (k : Int) * nGranularity) ∧
        (∀ r ∈ o.windows, (r.window_start : Int) + nWindow - 1 < tip.nTime) ∧
        (nWindow = nPeriod → o.windows = [])) := by
  lift nPeriod to ℕ using (by omega) with p
  lift nWindow to ℕ using (by omega) with w
  lift nGranularity to ℕ using (by omega) with g
  have hw' : 1 ≤ w := by omega
  have hwp' : w ≤ p := by omega
  have hg' : 1 ≤ g := by omega
  have hgw' : g ≤ w := by omega
  have hnw : p ≤ tip.nTime + 1 := by omega
  have hend : tip.nTime < 4294967296 := by omega
  rw [getwindowedtxvolume_valid fuel tip rest genesis p w g hw' hwp' hg' hgw' (by omega)
    hgen hnw hend, windowCount_natCast p w g hwp' hg']
  obtain ⟨init, hinit⟩ := periodSamples_shape tip rest (p : Int) hrest
  obtain ⟨r1, r2⟩ := whileLoop_starts (periodSamples tip rest (p : Int)) init
    ⟨tip.nTime, tip.nTxVolume⟩ tip.nTime g w (tip.nTime + 1 - p) ((p - w + g - 1) / g)
    hinit rfl hg' hw' (by omega) (ceil_steps tip.nTime p w g hwp' hg' hnw) fuel
    ⟨tip.nTime + 1 - p, tip.nTime + w - p, 0, 0, true, []⟩ 0
    (by simp) (by simp only []; omega) (by simp [nextStart])
  simp only [Nat.zero_add, List.map_nil, List.nil_append, Nat.sub_zero] at r1 r2
  refine ⟨_, rfl, r1, ?_⟩
  intro hK
  have hstarts := r2 hK
  refine ⟨?_, ?_, ?_⟩
  · have : List.map (fun r : WindowRecord => (r.window_start : Int))
        (whileLoop (periodSamples tip rest (p : Int)) tip.nTime g fuel
          ⟨tip.nTime + 1 - p, tip.nTime + w - p, 0, 0, true, []⟩).windows =
        (List.map WindowRecord.window_start
          (whileLoop (periodSamples tip rest (p : Int)) tip.nTime g fuel
          ⟨tip.nTime + 1 - p, tip.nTime + w - p, 0, 0, true, []⟩).windows).map
            (fun n : Nat => (n : Int)) := by
      rw [List.map_map]; rfl
    rw [this, hstarts, List.map_map, List.range_eq_range']
    apply List.map_congr_left
    intro k _
    simp only [Function.comp]
    push_cast [Nat.cast_sub hnw]
    ring
  · intro r hr
    have hmem : r.window_start ∈ List.map WindowRecord.window_start
        (whileLoop (periodSamples tip rest (p : Int)) tip.nTime g fuel
          ⟨tip.nTime + 1 - p, tip.nTime + w - p, 0, 0, true, []⟩).windows :=
      List.mem_map_of_mem _ hr
    rw [hstarts, List.mem_map] at hmem
    obtain ⟨k, hk, hk2⟩ := hmem
    rw [List.mem_range'_1] at hk
    have := (ceil_steps tip.nTime p w g hwp' hg' hnw k).2 (by omega)
    omega
  · intro hwp2
    have hwp3 : w = p := by exact_mod_cast hwp2
    have hK0 : (p - w + g - 1) / g = 0 := by
      rw [hwp3, Nat.sub_self, Nat.zero_add]
      exact Nat.div_eq_of_lt (by omega)
    rw [hK0] at hstarts
    simpa using hstarts

/-- Witness for C10: period 100, windows of 50 seconds every 20 seconds: three windows. -/
theorem window_starts_are_arithmetic_witness :
    ∃ o, getwindowedtxvolume 10 (overlapTip :: overlapRest) genesis800 100 50 20 = .ok o ∧
      (o.returned = true ↔ windowCount 100 50 20 ≤ 10) ∧
      (windowCount 100 50 20 ≤ 10 →
        o.windows.map (fun r => (r.window_start : Int)) =
          (List.range (windowCount 100 50 20)).map
            (fun k : Nat => (overlapTip.nTime : Int) - 100 + 1 + (k : Int) * 20) ∧
        (∀ r ∈ o.windows, (r.window_start : Int) + 50 - 1 < overlapTip.nTime) ∧
        ((50 : Int) = 100 → o.windows = [])) :=
  window_starts_are_arithmetic 10 overlapTip overlapRest genesis800 100 50 20
    (by decide) (by decide) (by decide) (by decide) (by decide) (by decide) (by decide)
    (by decide) (by decide)

/-- C8, failing input: on the chain whose tip is the genesis block, with period 100, window
size 50 and granularity 50, the window loop never exits: whatever the fuel, the run has not
returned and no window was pushed. -/
theorem genesis_tip_never_returns (fuel : Nat) :
    getwindowedtxvolume fuel [genesis1000] genesis1000 100 50 50 = .ok ⟨false, []⟩ := by
  have h := getwindowedtxvolume_valid fuel genesis1000 [] genesis1000 100 50 50 (by norm_num)
    (by norm_num) (by norm_num) (by norm_num) (by norm_num) (le_refl _) (by decide)
    (by decide)
  simp only [Nat.cast_ofNat] at h
  rw [h, periodSamples_nil]
  exact congrArg Except.ok (whileLoop_nil_stuck genesis1000.nTime 50 fuel
    ⟨genesis1000.nTime + 1 - 100, genesis1000.nTime + 50 - 100, 0, 0, true, []⟩ (by decide) rfl)

end Stealth
